import Mathlib

/-!
Verification of the workflow execution engine
(`backend/app/services/workflow/actions.py` and
`backend/app/services/workflow/executor.py`).

The engine's data (contexts, step parameters, step results) are JSON-like
Python values; we embed them as the mutual inductive `JsonVal`, with
Python dicts as `JsonFields` (key/value sequences with Python dict
semantics: `JsonFields.get`, `JsonFields.set`, `updateFields`) and Python
lists as `JsonArr`.  Machine time (`datetime.utcnow()`) is abstracted as
a monotone `Nat` clock threaded through the executor; only the presence
of timestamps and the derived duration matter to the engine's logic.
Python exceptions are embedded as `Except String`.
-/

namespace WorkflowEngine

/-- The open brace character, written via its code point. -/
def lbrace : Char := Char.ofNat 123

/-- The close brace character, written via its code point. -/
def rbrace : Char := Char.ofNat 125

/-- The double-quote character. -/
def dquote : Char := Char.ofNat 34

/-- The single-quote character. -/
def squote : Char := Char.ofNat 39

mutual

/-- JSON-like values as they appear in workflow variables, step parameters,
step results and execution contexts.  Numbers are modelled as integers (no
claim involves floating point).  Python `None` is `JsonVal.null`. -/
inductive JsonVal where
  | null
  | bool (b : Bool)
  | num (n : Int)
  | str (s : String)
  | arr (items : JsonArr)
  | obj (fields : JsonFields)

/-- A Python list of JSON-like values. -/
inductive JsonArr where
  | nil
  | cons (hd : JsonVal) (tl : JsonArr)

/-- A Python dict with string keys and JSON-like values, in insertion
order. -/
inductive JsonFields where
  | nil
  | cons (k : String) (v : JsonVal) (tl : JsonFields)

end

mutual

def JsonVal.decEq : (a b : JsonVal) → Decidable (a = b)
  | .null, .null => isTrue rfl
  | .bool a, .bool b =>
      if h : a = b then isTrue (by rw [h]) else isFalse (fun hh => h (JsonVal.bool.inj hh))
  | .num a, .num b =>
      if h : a = b then isTrue (by rw [h]) else isFalse (fun hh => h (JsonVal.num.inj hh))
  | .str a, .str b =>
      if h : a = b then isTrue (by rw [h]) else isFalse (fun hh => h (JsonVal.str.inj hh))
  | .arr a, .arr b =>
      match JsonArr.decEq a b with
      | isTrue h => isTrue (by rw [h])
      | isFalse h => isFalse (fun hh => h (JsonVal.arr.inj hh))
  | .obj a, .obj b =>
      match JsonFields.decEq a b with
      | isTrue h => isTrue (by rw [h])
      | isFalse h => isFalse (fun hh => h (JsonVal.obj.inj hh))
  | .null, .bool _ | .null, .num _ | .null, .str _ | .null, .arr _ | .null, .obj _
  | .bool _, .null | .bool _, .num _ | .bool _, .str _ | .bool _, .arr _ | .bool _, .obj _
  | .num _, .null | .num _, .bool _ | .num _, .str _ | .num _, .arr _ | .num _, .obj _
  | .str _, .null | .str _, .bool _ | .str _, .num _ | .str _, .arr _ | .str _, .obj _
  | .arr _, .null | .arr _, .bool _ | .arr _, .num _ | .arr _, .str _ | .arr _, .obj _
  | .obj _, .null | .obj _, .bool _ | .obj _, .num _ | .obj _, .str _ | .obj _, .arr _ =>
      isFalse (fun h => by cases h)

def JsonArr.decEq : (a b : JsonArr) → Decidable (a = b)
  | .nil, .nil => isTrue rfl
  | .cons x xs, .cons y ys =>
      match JsonVal.decEq x y, JsonArr.decEq xs ys with
      | isTrue h1, isTrue h2 => isTrue (by rw [h1, h2])
      | isFalse h1, _ => isFalse (fun hh => h1 (JsonArr.cons.inj hh).1)
      | _, isFalse h2 => isFalse (fun hh => h2 (JsonArr.cons.inj hh).2)
  | .nil, .cons _ _ | .cons _ _, .nil => isFalse (fun h => by cases h)

def JsonFields.decEq : (a b : JsonFields) → Decidable (a = b)
  | .nil, .nil => isTrue rfl
  | .cons k1 v1 xs, .cons k2 v2 ys =>
      match String.decEq k1 k2, JsonVal.decEq v1 v2, JsonFields.decEq xs ys with
      | isTrue h0, isTrue h1, isTrue h2 => isTrue (by rw [h0, h1, h2])
      | isFalse h0, _, _ => isFalse (fun hh => h0 (JsonFields.cons.inj hh).1)
      | _, isFalse h1, _ => isFalse (fun hh => h1 (JsonFields.cons.inj hh).2.1)
      | _, _, isFalse h2 => isFalse (fun hh => h2 (JsonFields.cons.inj hh).2.2)
  | .nil, .cons _ _ _ | .cons _ _ _, .nil => isFalse (fun h => by cases h)

end

instance : DecidableEq JsonVal := JsonVal.decEq
instance : DecidableEq JsonArr := JsonArr.decEq
instance : DecidableEq JsonFields := JsonFields.decEq

mutual

/-- Python `repr` of a JSON-like value (string escaping inside container
renderings is simplified; no claim depends on it). -/
def pyRepr : JsonVal → String
  | .null => "None"
  | .bool true => "True"
  | .bool false => "False"
  | .num n => toString n
  | .str s => String.singleton squote ++ s ++ String.singleton squote
  | .arr items => "[" ++ pyReprItems items ++ "]"
  | .obj fields => String.singleton lbrace ++ pyReprFields fields ++ String.singleton rbrace

/-- Comma-separated `repr`s of the elements of a Python list. -/
def pyReprItems : JsonArr → String
  | .nil => ""
  | .cons v .nil => pyRepr v
  | .cons v rest => pyRepr v ++ ", " ++ pyReprItems rest

/-- Comma-separated `repr(k): repr(v)` renderings of a Python dict. -/
def pyReprFields : JsonFields → String
  | .nil => ""
  | .cons k v .nil =>
      String.singleton squote ++ k ++ String.singleton squote ++ ": " ++ pyRepr v
  | .cons k v rest =>
      String.singleton squote ++ k ++ String.singleton squote ++ ": " ++ pyRepr v
        ++ ", " ++ pyReprFields rest

end

/-- Python `str` of a JSON-like value: the string itself for strings,
`repr` otherwise (`str(None) = "None"`, `str(True) = "True"`, ...). -/
def pyStr : JsonVal → String
  | .str s => s
  | v => pyRepr v

/-- Python truthiness of a JSON-like value. -/
def pyTruthy : JsonVal → Bool
  | .null => false
  | .bool b => b
  | .num n => n ≠ 0
  | .str s => s ≠ ""
  | .arr .nil => false
  | .arr (.cons _ _) => true
  | .obj .nil => false
  | .obj (.cons _ _ _) => true

namespace JsonFields

/-- Python `d.get(k)` (`none` when the key is absent). -/
def get : JsonFields → String → Option JsonVal
  | .nil, _ => none
  | .cons k' v rest, k => if k' = k then some v else get rest k

/-- Python `k in d`. -/
def hasKey (d : JsonFields) (k : String) : Bool :=
  (d.get k).isSome

/-- Python `d[k] = v`: replace the existing binding in place, else append. -/
def set : JsonFields → String → JsonVal → JsonFields
  | .nil, k, v => .cons k v .nil
  | .cons k' v' rest, k, v =>
      if k' = k then .cons k v rest else .cons k' v' (set rest k v)

theorem get_set_self : ∀ (l : JsonFields) (k : String) (v : JsonVal),
    get (set l k v) k = some v
  | .nil, k, v => by simp [get, set]
  | .cons k' v' tl, k, v => by
      by_cases h : k' = k
      · simp [get, set, h]
      · simp [get, set, h, get_set_self tl k v]

theorem get_set_other : ∀ (l : JsonFields) (k k' : String) (v : JsonVal),
    ¬ k = k' → get (set l k v) k' = get l k'
  | .nil, k, k', v, h => by simp [get, set, h]
  | .cons k0 v0 tl, k, k', v, h => by
      by_cases h0 : k0 = k
      · subst h0
        simp [get, set, h]
      · simp only [set, if_neg h0, get]
        by_cases h1 : k0 = k'
        · simp [h1]
        · simp [h1, get_set_other tl k k' v h]

end JsonFields

/-- A workflow execution context: a Python dict of variable bindings. -/
abbrev Ctx := JsonFields

/-- Python `base.update(other)` on dicts. -/
def updateFields (base : Ctx) : Ctx → Ctx
  | .nil => base
  | .cons k v rest => updateFields (base.set k v) rest

/-! ## Python string-method models

Lean's own `String.splitOn`, `String.trim`, `String.replace` use
position/iterator machinery that the kernel cannot evaluate, so we model
the handful of Python `str` methods the engine uses directly on character
lists. -/

/-- Python `hay.startswith(needle)` (arguments: needle, then hay). -/
def charsStartsWith : List Char → List Char → Bool
  | [], _ => true
  | _ :: _, [] => false
  | a :: as, b :: bs => if a = b then charsStartsWith as bs else false

/-- Python `needle in hay`. -/
def charsContains (hay needle : List Char) : Bool :=
  match hay with
  | [] => needle = []
  | _ :: tl => charsStartsWith needle (hay) || charsContains tl needle

/-- Python `hay.split(sep, 1)` for a non-empty separator: `some (before,
after)` at the first occurrence, `none` when the separator is absent. -/
def splitFirst : List Char → List Char → Option (List Char × List Char)
  | [], _ => none
  | h :: tl, needle =>
      if charsStartsWith needle (h :: tl) then some ([], (h :: tl).drop needle.length)
      else
        match splitFirst tl needle with
        | some (pre, post) => some (h :: pre, post)
        | none => none

/-- Python `hay.split(sep)` for a non-empty separator.  The fuel makes
the recursion structural; `hay.length + 1` is always enough since each
found separator consumes at least one character. -/
def splitAllAux (sep : List Char) : Nat → List Char → List (List Char)
  | 0, hay => [hay]
  | fuel + 1, hay =>
      match splitFirst hay sep with
      | some (pre, post) => pre :: splitAllAux sep fuel post
      | none => [hay]

/-- Python `hay.split(sep)` for a non-empty separator. -/
def splitAllChars (hay sep : List Char) : List (List Char) :=
  splitAllAux sep (hay.length + 1) hay

/-- Python `hay.replace(old, new)` for a non-empty `old`: left-to-right,
non-overlapping.  Fuel as in `splitAllAux`. -/
def replaceAllAux (old new : List Char) : Nat → List Char → List Char
  | 0, hay => hay
  | _ + 1, [] => []
  | fuel + 1, h :: tl =>
      if charsStartsWith old (h :: tl) then
        new ++ replaceAllAux old new fuel ((h :: tl).drop old.length)
      else h :: replaceAllAux old new fuel tl

/-- Python `hay.replace(old, new)` for a non-empty `old`. -/
def replaceAllChars (hay old new : List Char) : List Char :=
  replaceAllAux old new hay.length hay

/-- Python `s.strip()`: drop leading and trailing whitespace. -/
def pyStrip (cs : List Char) : List Char :=
  ((cs.dropWhile Char.isWhitespace).reverse.dropWhile Char.isWhitespace).reverse

/-- Python `s.strip()` on strings. -/
def pyStripStr (s : String) : String :=
  String.mk (pyStrip s.toList)

/-! ## Variable resolver (`BaseAction.resolve_variables`, actions.py lines 53-97) -/

/-- Dotted-path traversal of the replacer in `resolve_variables`:
`result = context; for part in parts: ...`.  A dict lookup that misses
yields Python `None` (here `JsonVal.null`); reaching a non-dict value
with parts remaining aborts the traversal (`none` = "return the original
token").  The `hasattr`/`getattr` branch of the source concerns Python
object attributes, which JSON-like data does not have, so it is never
taken on values of `JsonVal`. -/
def dotLookup : JsonVal → List String → Option JsonVal
  | v, [] => some v
  | .obj fields, p :: rest => dotLookup ((fields.get p).getD .null) rest
  | _, _ :: _ => none

/-- Re-build the original matched token `\x7b\x7bname\x7d\x7d` from its
inner text. -/
def braceWrap (name : List Char) : String :=
  String.mk (lbrace :: lbrace :: name ++ [rbrace, rbrace])

/-- The replacer function of `resolve_variables`: strip the inner text,
split on dots, traverse the context; substitute `str(result)` when the
traversal succeeds with a non-null value, otherwise emit the original
token unchanged. -/
def tokenReplace (ctx : Ctx) (name : List Char) : String :=
  let path := (splitAllChars (pyStrip name) [Char.ofNat 46]).map String.mk
  match dotLookup (.obj ctx) path with
  | some v => if v = .null then braceWrap name else pyStr v
  | none => braceWrap name

/-- Scan for the regex fragment `[^\x7d]+\x7d\x7d` directly after an opening
`\x7b\x7b`: a maximal nonempty run of non-close-brace characters followed by
two close braces.  Returns the inner text and the remainder after the
match. -/
def grabVar (cs : List Char) : Option (List Char × List Char) :=
  match cs.dropWhile (fun c => ¬ c = rbrace) with
  | _ :: r2 :: rest2 =>
      if cs.takeWhile (fun c => ¬ c = rbrace) = [] then none
      else if r2 = rbrace then some (cs.takeWhile (fun c => ¬ c = rbrace), rest2)
      else none
  | _ => none

theorem grabVar_length {cs nm rest2 : List Char}
    (h : grabVar cs = some (nm, rest2)) : rest2.length + 2 ≤ cs.length := by
  have hlen : (cs.takeWhile (fun c => ¬ c = rbrace)).length
      + (cs.dropWhile (fun c => ¬ c = rbrace)).length = cs.length := by
    rw [← List.length_append, cs.takeWhile_append_dropWhile]
  unfold grabVar at h
  split at h
  · split_ifs at h
    rename_i r1 r2 rest2' heq _ _
    have hrest : rest2' = rest2 := congrArg Prod.snd (Option.some.inj h)
    rw [heq] at hlen
    simp only [List.length_cons] at hlen
    rw [hrest] at hlen
    omega
  · exact Option.noConfusion h

/-- The scanning loop of `re.sub(pattern, replacer, value)` for the
pattern `\x7b\x7b[^\x7d]+\x7d\x7d`: walk left to right, at each position
try to match; on a match emit the replacement and continue after the
match, otherwise emit one character and move on.  The `Nat` argument is
fuel making the recursion structural; every step strictly shortens the
character list, so fuel `cs.length` (as used by `resolveString`) is never
exhausted. -/
def resolveCharsAux (ctx : Ctx) : Nat → List Char → List Char
  | 0, cs => cs
  | _ + 1, [] => []
  | fuel + 1, c1 :: rest1 =>
      match rest1 with
      | [] => [c1]
      | c2 :: rest =>
          if c1 = lbrace ∧ c2 = lbrace then
            match grabVar rest with
            | some (nm, rest2) =>
                (tokenReplace ctx nm).toList ++ resolveCharsAux ctx fuel rest2
            | none => c1 :: resolveCharsAux ctx fuel (c2 :: rest)
          else c1 :: resolveCharsAux ctx fuel (c2 :: rest)

/-- `re.sub` over a whole string. -/
def resolveString (ctx : Ctx) (s : String) : String :=
  String.mk (resolveCharsAux ctx s.toList.length s.toList)

mutual

/-- `BaseAction.resolve_variables`: substitute inside strings, recurse
into dicts (values only) and lists, return everything else unchanged. -/
def resolve_variables (ctx : Ctx) : JsonVal → JsonVal
  | .str s => .str (resolveString ctx s)
  | .obj fields => .obj (resolveFields ctx fields)
  | .arr items => .arr (resolveItems ctx items)
  | .null => .null
  | .bool b => .bool b
  | .num n => .num n

def resolveFields (ctx : Ctx) : JsonFields → JsonFields
  | .nil => .nil
  | .cons k v rest => .cons k (resolve_variables ctx v) (resolveFields ctx rest)

def resolveItems (ctx : Ctx) : JsonArr → JsonArr
  | .nil => .nil
  | .cons v rest => .cons (resolve_variables ctx v) (resolveItems ctx rest)

end

/-! ## Condition evaluator (`WorkflowExecutor._should_execute_step`, executor.py lines 220-264) -/

/-- Python `sub in s` for a non-empty needle. -/
def strContains (s sub : String) : Bool :=
  charsContains s.toList sub.toList

/-- Python `s.split(sep, 1)` for a separator known to occur in `s`. -/
def splitOnce (s sep : String) : String × String :=
  match splitFirst s.toList sep.toList with
  | some (pre, post) => (String.mk pre, String.mk post)
  | none => (s, "")

/-- Membership in the character set of Python `strip(chr(34) + chr(39))`. -/
def isQuoteChar (c : Char) : Bool :=
  c = dquote ∨ c = squote

/-- Python `s.strip(chr(34) + chr(39))`: drop leading and trailing quote
characters. -/
def stripQuoteChars (s : String) : String :=
  String.mk (((s.toList.dropWhile isQuoteChar).reverse.dropWhile isQuoteChar).reverse)

/-- A step definition: one element of a workflow's JSON `steps` list,
with the keys the engine reads (`step.get(...)`).  `none` models an
absent key. -/
structure StepDef where
  name : Option String := none
  action : Option String := none
  parameters : JsonFields := .nil
  output_variable : Option String := none
  condition : Option String := none
  deriving DecidableEq

/-- The body of `_should_execute_step` after the `if not condition`
guard: the four-way branch on the condition string.  The source's
`except` branch (any exception during evaluation returns `True`) has no
counterpart because every operation here is total. -/
def evalCondition (condition : String) (context : Ctx) : Bool :=
  if strContains condition " == " then
    let p := splitOnce condition " == "
    let var_name := pyStripStr p.1
    let expected := stripQuoteChars (pyStripStr p.2)
    decide (pyStr ((context.get var_name).getD .null) = expected)
  else if strContains condition " != " then
    let p := splitOnce condition " != "
    let var_name := pyStripStr p.1
    let expected := stripQuoteChars (pyStripStr p.2)
    decide (¬ pyStr ((context.get var_name).getD .null) = expected)
  else if strContains condition " exists" then
    let var_name := String.mk (pyStrip (replaceAllChars condition.toList " exists".toList []))
    match context.get var_name with
    | some v => decide (¬ v = .null)
    | none => false
  else
    pyTruthy ((context.get (pyStripStr condition)).getD .null)

/-- `WorkflowExecutor._should_execute_step`: no or empty (Python-falsy)
condition means run; otherwise evaluate the condition grammar. -/
def should_execute_step (step : StepDef) (context : Ctx) : Bool :=
  match step.condition with
  | none => true
  | some c => if c = "" then true else evalCondition c context

/-! ## Action contract and registry (`actions.py` lines 11-161) -/

/-- The action contract: a stable type string plus `validate_parameters`
and `execute`.  In the source an action class is a factory producing a
fresh stateless instance per `ActionRegistry.get`; in this pure embedding
the class and the instances it produces are the same value, so `get`
returning the registered value is exactly "a fresh instance of the
registered class". -/
structure ActionImpl where
  action_type : String
  validate_parameters : JsonFields → Except String Unit
  execute : JsonFields → Ctx → Except String JsonVal

/-- Association-list lookup for the registry's `_actions` dict. -/
def regGet : List (String × ActionImpl) → String → Option ActionImpl
  | [], _ => none
  | (k, a) :: rest, t => if k = t then some a else regGet rest t

/-- Association-list store for the registry's `_actions` dict (Python
`d[k] = v`). -/
def regSet : List (String × ActionImpl) → String → ActionImpl → List (String × ActionImpl)
  | [], k, a => [(k, a)]
  | (k', a') :: rest, k, a =>
      if k' = k then (k, a) :: rest else (k', a') :: regSet rest k a

/-- `ActionRegistry`: the mapping from action-type string to action
class. -/
structure ActionRegistry where
  actions : List (String × ActionImpl) := []

/-- `ActionRegistry.register`: store under the instance's `action_type`;
an existing entry is overwritten (the source logs a warning, raises
nothing). -/
def ActionRegistry.register (r : ActionRegistry) (action_class : ActionImpl) : ActionRegistry :=
  { actions := regSet r.actions action_class.action_type action_class }

/-- `ActionRegistry.get`: instantiate the registered class, or `none`
when the type is unknown. -/
def ActionRegistry.get (r : ActionRegistry) (action_type : String) : Option ActionImpl :=
  regGet r.actions action_type

/-- `ActionRegistry.is_registered`. -/
def ActionRegistry.is_registered (r : ActionRegistry) (action_type : String) : Bool :=
  (regGet r.actions action_type).isSome

/-! ## Executor data model (`db/models.py` lines 164-225) -/

/-- A `WorkflowExecution` row, with timestamps abstracted to `Nat`
clock ticks. -/
structure Execution where
  workflow_id : Nat
  status : String
  input_data : JsonFields
  context : JsonFields
  output_data : Option JsonFields
  current_step : Nat
  error_message : Option String
  error_step : Option Nat
  started_at : Option Nat
  completed_at : Option Nat
  duration_ms : Option Int
  deriving DecidableEq

/-- A `WorkflowStepExecution` row. -/
structure StepExec where
  step_index : Nat
  step_name : Option String
  action_type : String
  status : String
  parameters : JsonFields
  output_data : Option JsonVal
  error_message : Option String
  started_at : Option Nat
  completed_at : Option Nat
  duration_ms : Option Int
  retry_count : Nat := 0
  deriving DecidableEq

/-- `(completed_at - started_at).total_seconds() * 1000` with `Nat`
tick timestamps. -/
def durationMs (startT endT : Nat) : Int :=
  ((endT : Int) - (startT : Int)) * 1000

/-- A `Workflow` row (the fields the executor reads). -/
structure Workflow where
  id : Nat := 0
  enabled : Bool := true
  steps : List StepDef := []
  vars : JsonFields := .nil
  deriving DecidableEq

/-! ## Step runner (`WorkflowExecutor._execute_step`, executor.py lines 137-200) -/

/-- The body of the `try` block of `_execute_step`: validate the raw
parameters, then execute the action on the raw parameters and the
context. -/
def run_action (action : ActionImpl) (params : JsonFields) (ctx : Ctx) :
    Except String JsonVal :=
  match action.validate_parameters params with
  | .error e => .error e
  | .ok _ => action.execute params ctx

/-- The raising behaviour of `_execute_step` in isolation: missing or
Python-falsy `action` key, unknown action type, then
`validate_parameters` followed by `execute` on the raw parameters. -/
def step_attempt (reg : ActionRegistry) (step_index : Nat) (step : StepDef)
    (context : Ctx) : Except String JsonVal :=
  match step.action with
  | none => .error ("Step " ++ toString step_index ++ " missing \x27action\x27 field")
  | some action_type =>
    if action_type = "" then
      .error ("Step " ++ toString step_index ++ " missing \x27action\x27 field")
    else
      match reg.get action_type with
      | none => .error ("Unknown action type: " ++ action_type)
      | some action => run_action action step.parameters context

/-- Result of one `_execute_step` call: the step rows it persisted (none
when the action could not even be resolved), the returned value or
re-raised error, and the advanced clock. -/
structure StepOutcome where
  rows : List StepExec
  result : Except String JsonVal
  clock : Nat

/-- `WorkflowExecutor._execute_step`.  The `running` row is created only
after the action type is resolved; on a validate/execute failure that row
is transitioned to `failed` and the error is re-raised.  Note that
`action.execute` receives the raw `step.parameters` — the executor never
calls the variable resolver. -/
def execute_step (reg : ActionRegistry) (clock : Nat) (step_index : Nat) (step : StepDef)
    (context : Ctx) : StepOutcome :=
  match step.action with
  | none =>
      { rows := [],
        result := .error ("Step " ++ toString step_index ++ " missing \x27action\x27 field"),
        clock }
  | some action_type =>
    if action_type = "" then
      { rows := [],
        result := .error ("Step " ++ toString step_index ++ " missing \x27action\x27 field"),
        clock }
    else
      match reg.get action_type with
      | none =>
          { rows := [], result := .error ("Unknown action type: " ++ action_type), clock }
      | some action =>
        let t0 := clock
        let row0 : StepExec :=
          { step_index, step_name := step.name, action_type, status := "running",
            parameters := step.parameters, output_data := none, error_message := none,
            started_at := some t0, completed_at := none, duration_ms := none }
        match run_action action step.parameters context with
        | .ok result =>
            let t1 := clock + 1
            { rows := [{ row0 with
                status := "completed", output_data := some result,
                completed_at := some t1, duration_ms := some (durationMs t0 t1) }],
              result := .ok result, clock := clock + 2 }
        | .error e =>
            let t1 := clock + 1
            { rows := [{ row0 with
                status := "failed", error_message := some e,
                completed_at := some t1, duration_ms := some (durationMs t0 t1) }],
              result := .error e, clock := clock + 2 }

/-- `WorkflowExecutor._record_step_skipped`: a `skipped` row with the raw
parameters and neither timestamps nor output. -/
def record_step_skipped (step_index : Nat) (step : StepDef) : StepExec :=
  { step_index, step_name := step.name, action_type := step.action.getD "unknown",
    status := "skipped", parameters := step.parameters, output_data := none,
    error_message := none, started_at := none, completed_at := none, duration_ms := none }

/-! ## Workflow executor (`WorkflowExecutor.execute_workflow`, executor.py lines 24-135) -/

/-- The executor's in-flight state: the Execution row, the step rows
persisted so far, the live context and the clock. -/
structure RunState where
  execution : Execution
  rows : List StepExec
  context : Ctx
  clock : Nat
  deriving DecidableEq

/-- `context[output_var] = step_result` with the declared or defaulted
output-variable name. -/
def bind_output (step_index : Nat) (step : StepDef) (context : Ctx) (v : JsonVal) : Ctx :=
  context.set (step.output_variable.getD ("step_" ++ toString step_index ++ "_output")) v

/-- The duration stamping used when an Execution reaches a terminal
state: `duration_ms` is derived only when a start timestamp exists. -/
def stamp_duration (e0 : Execution) (t : Nat) : Option Int :=
  match e0.started_at with
  | some s => some (durationMs s t)
  | none => e0.duration_ms

/-- The Execution mutation after a successful step: persist the new
context snapshot and advance the cursor. -/
def step_success_execution (e0 : Execution) (ctx1 : Ctx) (idx : Nat) : Execution :=
  { e0 with context := ctx1, current_step := idx + 1 }

/-- The Execution mutation on a failing step: status `failed`, error
message and step recorded, end time stamped, duration derived when a
start timestamp exists. -/
def fail_execution (e0 : Execution) (e : String) (idx t : Nat) : Execution :=
  { e0 with
    status := "failed", error_message := some e, error_step := some idx,
    completed_at := some t, duration_ms := stamp_duration e0 t }

/-- The Execution mutation on normal loop exit: status `completed`,
output data set to the final context, end time stamped. -/
def complete_execution (e0 : Execution) (output : Ctx) (t : Nat) : Execution :=
  { e0 with
    status := "completed", output_data := some output,
    completed_at := some t, duration_ms := stamp_duration e0 t }

/-- The `for step_index, step in enumerate(workflow.steps)` loop of
`execute_workflow`: skip on a false condition (persisting a skipped row),
otherwise run the step; on success bind the output variable, persist the
context snapshot and advance `current_step`; on failure mark the
Execution failed, stamp the end time/duration and re-raise. -/
def run_steps (reg : ActionRegistry) :
    List StepDef → Nat → RunState → RunState × Except String Unit
  | [], _, st => (st, .ok ())
  | step :: rest, idx, st =>
      if should_execute_step step st.context then
        let out := execute_step reg st.clock idx step st.context
        match out.result with
        | .ok v =>
            let ctx1 := bind_output idx step st.context v
            run_steps reg rest (idx + 1)
              { execution := step_success_execution st.execution ctx1 idx,
                rows := st.rows ++ out.rows, context := ctx1, clock := out.clock }
        | .error e =>
            let t := out.clock
            ({ execution := fail_execution st.execution e idx t,
                rows := st.rows ++ out.rows, context := st.context, clock := t + 1 },
              .error e)
      else
        run_steps reg rest (idx + 1)
          { st with rows := st.rows ++ [record_step_skipped idx step] }

/-- Outcome of `execute_workflow`: either rejected before any Execution
row exists (workflow missing or disabled), or ran with a final persisted
state and either a normal return or a re-raised step error. -/
inductive RunOutcome where
  | rejected (msg : String)
  | ran (final : RunState) (result : Except String Unit)

/-- Context seeding (executor.py lines 64-69): workflow default
variables first, then the caller's input (input wins on collision). -/
def seed_context (workflow : Workflow) (input_data : Option JsonFields) : Ctx :=
  updateFields (updateFields .nil workflow.vars) (input_data.getD .nil)

/-- `WorkflowExecutor.execute_workflow`. -/
def execute_workflow (reg : ActionRegistry) (wf : Option Workflow) (workflow_id : Nat)
    (input_data : Option JsonFields) : RunOutcome :=
  match wf with
  | none => .rejected ("Workflow " ++ toString workflow_id ++ " not found")
  | some workflow =>
    if workflow.enabled = false then
      .rejected ("Workflow " ++ toString workflow_id ++ " is disabled")
    else
      let execution0 : Execution :=
        { workflow_id, status := "pending", input_data := input_data.getD .nil,
          context := .nil, output_data := none, current_step := 0,
          error_message := none, error_step := none, started_at := none,
          completed_at := none, duration_ms := none }
      let context0 := seed_context workflow input_data
      let t0 := 0
      let execution1 := { execution0 with status := "running", started_at := some t0 }
      let st0 : RunState := { execution := execution1, rows := [], context := context0, clock := 1 }
      match run_steps reg workflow.steps 0 st0 with
      | (st, .error e) => .ran st (.error e)
      | (st, .ok _) =>
          let t := st.clock
          .ran { st with
              clock := t + 1,
              execution := complete_execution st.execution st.context t }
            (.ok ())

/-- `WorkflowExecutor.cancel_execution`. -/
def cancel_execution (execution_id : Nat) (execution : Option Execution)
    (now : Nat) : Except String Execution :=
  match execution with
  | none => .error ("Execution " ++ toString execution_id ++ " not found")
  | some e =>
    if e.status = "pending" ∨ e.status = "running" then
      .ok { e with
        status := "cancelled", completed_at := some now,
        duration_ms := stamp_duration e now }
    else .error ("Cannot cancel execution in status: " ++ e.status)

/-! ## A concrete action handler (`LLMQueryAction`, action_handlers.py lines 15-72) -/

/-- Word-boundary scan behind `pyWordCount`; the flag records whether
the previous character was inside a word. -/
def pyWordCountAux : Bool → List Char → Nat
  | _, [] => 0
  | inWord, c :: tl =>
      if c.isWhitespace then pyWordCountAux false tl
      else (if inWord then 0 else 1) + pyWordCountAux true tl

/-- `len(response.split())`: Python whitespace word count. -/
def pyWordCount (s : String) : Nat :=
  pyWordCountAux false s.toList

/-- `LLMQueryAction`: the external `llm_service.generate_response` call is
the parameter `llm` (receiving the resolved prompt and system prompt; the
pass-through `temperature`/`max_tokens` knobs of the external call are not
modelled).  The handler itself resolves the `prompt` and `system_prompt`
parameters against the context before calling out. -/
def llm_query_action (llm : JsonVal → JsonVal → Except String String) : ActionImpl :=
  { action_type := "llm_query",
    validate_parameters := fun parameters =>
      if parameters.hasKey "prompt" then .ok ()
      else .error "LLM query action requires \x27prompt\x27 parameter",
    execute := fun parameters context =>
      match parameters.get "prompt" with
      | none => .error "LLM query action requires \x27prompt\x27 parameter"
      | some p =>
        let prompt := resolve_variables context p
        let system_prompt := resolve_variables context
          ((parameters.get "system_prompt").getD (.str "You are a helpful AI assistant."))
        match llm prompt system_prompt with
        | .error e => .error e
        | .ok response =>
            .ok (.obj (.cons "response" (.str response)
                  (.cons "tokens_used" (.num (pyWordCount response)) .nil))) }

/-! ## Observers and run predicates used by the theorems -/

instance {ε α : Type} [DecidableEq ε] [DecidableEq α] : DecidableEq (Except ε α) :=
  fun a b =>
  match a, b with
  | .ok a1, .ok a2 =>
      if h : a1 = a2 then isTrue (by rw [h])
      else isFalse (fun hh => h (by cases hh; rfl))
  | .error e1, .error e2 =>
      if h : e1 = e2 then isTrue (by rw [h])
      else isFalse (fun hh => h (by cases hh; rfl))
  | .ok _, .error _ => isFalse (fun h => by cases h)
  | .error _, .ok _ => isFalse (fun h => by cases h)

/-- A placeholder state, only used by `ranState` on the `rejected`
constructor. -/
def dummyState : RunState :=
  { execution :=
      { workflow_id := 0, status := "", input_data := .nil, context := .nil,
        output_data := none, current_step := 0, error_message := none, error_step := none,
        started_at := none, completed_at := none, duration_ms := none },
    rows := [], context := .nil, clock := 0 }

/-- The final persisted state of a run (meaningful only on `ran`). -/
def ranState : RunOutcome → RunState
  | .ran st _ => st
  | .rejected _ => dummyState

/-- The caller-visible result of a run. -/
def ranResult : RunOutcome → Except String Unit
  | .ran _ r => r
  | .rejected m => .error m

/-- All steps run (true condition) and succeed, step by step, starting
from the given index and context.  This is the hypothesis of the
happy-path claim. -/
def StepsAllOk (reg : ActionRegistry) : List StepDef → Nat → Ctx → Prop
  | [], _, _ => True
  | step :: rest, idx, ctx =>
      should_execute_step step ctx = true ∧
      ∃ v, step_attempt reg idx step ctx = .ok v ∧
        StepsAllOk reg rest (idx + 1) (bind_output idx step ctx v)

/-- Every step is either skipped or succeeds (no failure), step by
step. -/
def StepsNoFail (reg : ActionRegistry) : List StepDef → Nat → Ctx → Prop
  | [], _, _ => True
  | step :: rest, idx, ctx =>
      (should_execute_step step ctx = false ∧ StepsNoFail reg rest (idx + 1) ctx) ∨
      (should_execute_step step ctx = true ∧
        ∃ v, step_attempt reg idx step ctx = .ok v ∧
          StepsNoFail reg rest (idx + 1) (bind_output idx step ctx v))

/-- The context after the loop has processed the given steps: skipped
steps leave it alone, executed steps bind their result under the declared
or defaulted output-variable name.  (After a failing step the tail is cut
off; this function is only consulted up to the first failure.) -/
def ctx_after (reg : ActionRegistry) : List StepDef → Nat → Ctx → Ctx
  | [], _, ctx => ctx
  | step :: rest, idx, ctx =>
      if should_execute_step step ctx then
        match step_attempt reg idx step ctx with
        | .ok v => ctx_after reg rest (idx + 1) (bind_output idx step ctx v)
        | .error _ => ctx
      else ctx_after reg rest (idx + 1) ctx

/-- One plus the step index of the last `completed` step row, `init`
when there is none (rows are scanned left to right, later rows win). -/
def last_completed_cursor (init : Nat) (rows : List StepExec) : Nat :=
  rows.foldl (fun acc r => if r.status = "completed" then r.step_index + 1 else acc) init

/-! ## Infrastructure lemmas about `execute_step` and `run_steps` -/

theorem execute_step_result (reg : ActionRegistry) (clk idx : Nat) (step : StepDef)
    (ctx : Ctx) :
    (execute_step reg clk idx step ctx).result = step_attempt reg idx step ctx := by
  unfold execute_step step_attempt
  split
  · rfl
  · split
    · rfl
    · split
      · rfl
      · split
        · rename_i heq
          simp [heq]
        · rename_i heq
          simp [heq]

theorem execute_step_rows_mem (reg : ActionRegistry) (clk idx : Nat) (step : StepDef)
    (ctx : Ctx) :
    ∀ r ∈ (execute_step reg clk idx step ctx).rows, r.step_index = idx := by
  intro r
  unfold execute_step
  split
  · intro hr; simp at hr
  · split
    · intro hr; simp at hr
    · split
      · intro hr; simp at hr
      · split
        · intro hr
          simp at hr
          rw [hr]
        · intro hr
          simp at hr
          rw [hr]

theorem execute_step_rows_of_ok (reg : ActionRegistry) (clk idx : Nat) (step : StepDef)
    (ctx : Ctx) (v : JsonVal)
    (h : (execute_step reg clk idx step ctx).result = .ok v) :
    ∃ row, (execute_step reg clk idx step ctx).rows = [row] ∧
      row.status = "completed" ∧ row.step_index = idx ∧ row.output_data = some v := by
  revert h
  unfold execute_step
  split
  · intro h; simp at h
  · split
    · intro h; simp at h
    · split
      · intro h; simp at h
      · split
        · intro h
          simp only [Except.ok.injEq] at h
          subst h
          exact ⟨_, rfl, rfl, rfl, rfl⟩
        · intro h; simp at h

theorem execute_step_rows_of_err_resolved (reg : ActionRegistry) (clk idx : Nat)
    (step : StepDef) (ctx : Ctx) (ty : String) (action : ActionImpl) (e : String)
    (hty : step.action = some ty) (hne : ¬ ty = "") (hget : reg.get ty = some action)
    (h : (execute_step reg clk idx step ctx).result = .error e) :
    ∃ row, (execute_step reg clk idx step ctx).rows = [row] ∧
      row.status = "failed" ∧ row.step_index = idx ∧ row.error_message = some e := by
  revert h
  unfold execute_step
  split
  · rename_i heq
    rw [hty] at heq
    cases heq
  · rename_i ty2 heq
    rw [hty] at heq
    cases heq
    split
    · rename_i hc
      exact absurd hc hne
    · split
      · rename_i heq2
        rw [hget] at heq2
        cases heq2
      · rename_i action2 heq2
        rw [hget] at heq2
        cases heq2
        split
        · intro h; simp at h
        · intro h
          simp only [Except.error.injEq] at h
          subst h
          exact ⟨_, rfl, rfl, rfl, rfl⟩

theorem execute_step_rows_of_unknown (reg : ActionRegistry) (clk idx : Nat)
    (step : StepDef) (ctx : Ctx) (ty : String)
    (hty : step.action = some ty) (hne : ¬ ty = "") (hget : reg.get ty = none) :
    (execute_step reg clk idx step ctx).rows = [] ∧
    (execute_step reg clk idx step ctx).result = .error ("Unknown action type: " ++ ty) := by
  unfold execute_step
  split
  · rename_i heq
    rw [hty] at heq
    cases heq
  · rename_i ty2 heq
    rw [hty] at heq
    cases heq
    split
    · rename_i hc
      exact absurd hc hne
    · split
      · exact ⟨rfl, rfl⟩
      · rename_i action2 heq2
        rw [hget] at heq2
        cases heq2

theorem execute_step_rows_not_completed (reg : ActionRegistry) (clk idx : Nat)
    (step : StepDef) (ctx : Ctx) (e : String)
    (h : (execute_step reg clk idx step ctx).result = .error e) :
    ∀ r ∈ (execute_step reg clk idx step ctx).rows, ¬ r.status = "completed" := by
  intro r
  revert h
  unfold execute_step
  split
  · intro h hr; simp at hr
  · split
    · intro h hr; simp at hr
    · split
      · intro h hr; simp at hr
      · split
        · intro h; simp at h
        · intro h hr
          simp at hr
          rw [hr]
          simp

theorem run_steps_cons_skip (reg : ActionRegistry) (step : StepDef) (rest : List StepDef)
    (idx : Nat) (st : RunState)
    (hcond : should_execute_step step st.context = false) :
    run_steps reg (step :: rest) idx st
      = run_steps reg rest (idx + 1)
          { st with rows := st.rows ++ [record_step_skipped idx step] } := by
  unfold run_steps
  rw [hcond]
  simp only [Bool.false_eq_true, if_false]
  cases rest <;> rfl

theorem run_steps_cons_ok (reg : ActionRegistry) (step : StepDef) (rest : List StepDef)
    (idx : Nat) (st : RunState) (v : JsonVal) (out : StepOutcome)
    (hout : execute_step reg st.clock idx step st.context = out)
    (hcond : should_execute_step step st.context = true)
    (hok : step_attempt reg idx step st.context = .ok v) :
    run_steps reg (step :: rest) idx st
      = run_steps reg rest (idx + 1)
          { execution := step_success_execution st.execution (bind_output idx step st.context v) idx,
            rows := st.rows ++ out.rows, context := bind_output idx step st.context v,
            clock := out.clock } := by
  subst hout
  have hres : (execute_step reg st.clock idx step st.context).result = .ok v := by
    rw [execute_step_result]
    exact hok
  unfold run_steps
  rw [hcond]
  simp only [if_true]
  rw [hres]
  cases rest <;> rfl

theorem run_steps_cons_err (reg : ActionRegistry) (step : StepDef) (rest : List StepDef)
    (idx : Nat) (st : RunState) (e : String) (out : StepOutcome)
    (hout : execute_step reg st.clock idx step st.context = out)
    (hcond : should_execute_step step st.context = true)
    (herr : step_attempt reg idx step st.context = .error e) :
    run_steps reg (step :: rest) idx st
      = ({ execution := fail_execution st.execution e idx out.clock,
           rows := st.rows ++ out.rows, context := st.context, clock := out.clock + 1 },
         .error e) := by
  subst hout
  have hres : (execute_step reg st.clock idx step st.context).result = .error e := by
    rw [execute_step_result]
    exact herr
  unfold run_steps
  rw [hcond]
  simp only [if_true]
  rw [hres]

theorem last_completed_cursor_append_none (init : Nat) (rows nr : List StepExec)
    (h : ∀ r ∈ nr, ¬ r.status = "completed") :
    last_completed_cursor init (rows ++ nr) = last_completed_cursor init rows := by
  unfold last_completed_cursor
  rw [List.foldl_append]
  generalize List.foldl _ init rows = acc
  induction nr generalizing acc with
  | nil => rfl
  | cons r nr ih =>
      have hr : ¬ r.status = "completed" := h r (by simp)
      simp only [List.foldl_cons, hr, if_false]
      exact ih (fun r2 hr2 => h r2 (by simp [hr2])) acc

theorem last_completed_cursor_append_completed (init : Nat) (rows : List StepExec)
    (row : StepExec) (h : row.status = "completed") :
    last_completed_cursor init (rows ++ [row]) = row.step_index + 1 := by
  unfold last_completed_cursor
  rw [List.foldl_append]
  simp [h]

theorem ctx_after_cons_skip (reg : ActionRegistry) (step : StepDef) (rest : List StepDef)
    (idx : Nat) (ctx : Ctx) (h : should_execute_step step ctx = false) :
    ctx_after reg (step :: rest) idx ctx = ctx_after reg rest (idx + 1) ctx := by
  conv_lhs => unfold ctx_after
  rw [h]
  simp

theorem ctx_after_cons_ok (reg : ActionRegistry) (step : StepDef) (rest : List StepDef)
    (idx : Nat) (ctx : Ctx) (v : JsonVal)
    (hc : should_execute_step step ctx = true)
    (hok : step_attempt reg idx step ctx = .ok v) :
    ctx_after reg (step :: rest) idx ctx
      = ctx_after reg rest (idx + 1) (bind_output idx step ctx v) := by
  conv_lhs => unfold ctx_after
  rw [hc, hok]
  simp

theorem run_steps_all_ok (reg : ActionRegistry) :
    ∀ (steps : List StepDef) (idx : Nat) (st : RunState),
      StepsAllOk reg steps idx st.context →
      (run_steps reg steps idx st).2 = .ok () ∧
      (run_steps reg steps idx st).1.context = ctx_after reg steps idx st.context ∧
      (run_steps reg steps idx st).1.execution.status = st.execution.status ∧
      (run_steps reg steps idx st).1.execution.started_at = st.execution.started_at ∧
      (run_steps reg steps idx st).1.execution.output_data = st.execution.output_data ∧
      (run_steps reg steps idx st).1.execution.current_step
        = (if steps.isEmpty then st.execution.current_step else idx + steps.length)
  | [], idx, st, _ => by
      simp [run_steps, ctx_after]
  | step :: rest, idx, st, h => by
      obtain ⟨hcond, v, hok, hrest⟩ := h
      rw [run_steps_cons_ok reg step rest idx st v _ rfl hcond hok]
      obtain ⟨h1, h2, h3, h4, h5, h6⟩ := run_steps_all_ok reg rest (idx + 1)
        { execution := step_success_execution st.execution (bind_output idx step st.context v) idx,
          rows := st.rows ++ (execute_step reg st.clock idx step st.context).rows,
          context := bind_output idx step st.context v,
          clock := (execute_step reg st.clock idx step st.context).clock } hrest
      refine ⟨h1, ?_, ?_, ?_, ?_, ?_⟩
      · rw [h2]
        exact (ctx_after_cons_ok reg step rest idx st.context v hcond hok).symm
      · exact h3
      · exact h4
      · exact h5
      · rw [h6]
        show (if rest.isEmpty then (step_success_execution st.execution
            (bind_output idx step st.context v) idx).current_step
            else idx + 1 + rest.length) = _
        unfold step_success_execution
        cases rest with
        | nil => simp
        | cons r rs => simp [List.length_cons]; omega

theorem run_steps_no_fail (reg : ActionRegistry) :
    ∀ (pre rest : List StepDef) (idx : Nat) (st : RunState),
      StepsNoFail reg pre idx st.context →
      ∃ st2, run_steps reg (pre ++ rest) idx st = run_steps reg rest (idx + pre.length) st2 ∧
        st2.context = ctx_after reg pre idx st.context ∧
        st2.execution.status = st.execution.status ∧
        st2.execution.started_at = st.execution.started_at ∧
        st2.execution.error_message = st.execution.error_message ∧
        st2.execution.error_step = st.execution.error_step ∧
        st2.execution.completed_at = st.execution.completed_at ∧
        ∃ nr, st2.rows = st.rows ++ nr ∧ ∀ r ∈ nr, r.step_index < idx + pre.length
  | [], rest, idx, st, _ => by
      refine ⟨st, by simp, by simp [ctx_after], rfl, rfl, rfl, rfl, rfl, [], by simp, by simp⟩
  | step :: pre, rest, idx, st, h => by
      cases h with
      | inl hskip =>
          obtain ⟨hcond, hrest⟩ := hskip
          rw [List.cons_append, run_steps_cons_skip reg step (pre ++ rest) idx st hcond]
          obtain ⟨st2, heq, hctx, h3, h4, h5, h6, h7, nr, hrows, hmem⟩ :=
            run_steps_no_fail reg pre rest (idx + 1)
              { st with rows := st.rows ++ [record_step_skipped idx step] } hrest
          have hlen : idx + 1 + pre.length = idx + (step :: pre).length := by
            simp [List.length_cons]
            omega
          refine ⟨st2, by rw [heq, hlen], ?_, h3, h4, h5, h6, h7,
            record_step_skipped idx step :: nr, ?_, ?_⟩
          · rw [hctx]
            exact (ctx_after_cons_skip reg step pre idx st.context hcond).symm
          · rw [hrows]
            simp
          · intro r hr
            simp only [List.mem_cons] at hr
            cases hr with
            | inl hr =>
                rw [hr]
                show idx < idx + (step :: pre).length
                simp [List.length_cons]
            | inr hr =>
                have := hmem r hr
                simp only [List.length_cons]
                omega
      | inr hexec =>
          obtain ⟨hcond, v, hok, hrest⟩ := hexec
          rw [List.cons_append, run_steps_cons_ok reg step (pre ++ rest) idx st v _ rfl hcond hok]
          obtain ⟨st2, heq, hctx, h3, h4, h5, h6, h7, nr, hrows, hmem⟩ :=
            run_steps_no_fail reg pre rest (idx + 1)
              { execution := step_success_execution st.execution (bind_output idx step st.context v) idx,
                rows := st.rows ++ (execute_step reg st.clock idx step st.context).rows,
                context := bind_output idx step st.context v,
                clock := (execute_step reg st.clock idx step st.context).clock } hrest
          have hlen : idx + 1 + pre.length = idx + (step :: pre).length := by
            simp [List.length_cons]
            omega
          refine ⟨st2, by rw [heq, hlen], ?_, h3, h4, h5, h6, h7,
            (execute_step reg st.clock idx step st.context).rows ++ nr, ?_, ?_⟩
          · rw [hctx]
            exact (ctx_after_cons_ok reg step pre idx st.context v hcond hok).symm
          · rw [hrows]
            simp
          · intro r hr
            simp only [List.mem_append] at hr
            cases hr with
            | inl hr =>
                have := execute_step_rows_mem reg st.clock idx step st.context r hr
                simp only [List.length_cons]
                omega
            | inr hr =>
                have := hmem r hr
                simp only [List.length_cons]
                omega

theorem run_steps_cursor (reg : ActionRegistry) :
    ∀ (steps : List StepDef) (idx : Nat) (st : RunState),
      st.execution.current_step = last_completed_cursor 0 st.rows →
      (run_steps reg steps idx st).1.execution.current_step
        = last_completed_cursor 0 (run_steps reg steps idx st).1.rows
  | [], idx, st, h => by
      simpa [run_steps] using h
  | step :: rest, idx, st, h => by
      cases hcond : should_execute_step step st.context with
      | false =>
          rw [run_steps_cons_skip reg step rest idx st hcond]
          apply run_steps_cursor reg rest (idx + 1)
          show st.execution.current_step
            = last_completed_cursor 0 (st.rows ++ [record_step_skipped idx step])
          rw [last_completed_cursor_append_none 0 st.rows [record_step_skipped idx step]
            (by intro r hr; simp at hr; rw [hr]; simp [record_step_skipped])]
          exact h
      | true =>
          cases hres : step_attempt reg idx step st.context with
          | ok v =>
              rw [run_steps_cons_ok reg step rest idx st v _ rfl hcond hres]
              apply run_steps_cursor reg rest (idx + 1)
              obtain ⟨row, hrow, hstat, hidx, _⟩ :=
                execute_step_rows_of_ok reg st.clock idx step st.context v
                  (by rw [execute_step_result]; exact hres)
              show (step_success_execution st.execution (bind_output idx step st.context v)
                  idx).current_step
                = last_completed_cursor 0 (st.rows ++ (execute_step reg st.clock idx step st.context).rows)
              rw [hrow, last_completed_cursor_append_completed 0 st.rows row hstat, hidx]
              rfl
          | error e =>
              rw [run_steps_cons_err reg step rest idx st e _ rfl hcond hres]
              show (fail_execution st.execution e idx
                  (execute_step reg st.clock idx step st.context).clock).current_step
                = last_completed_cursor 0 (st.rows ++ (execute_step reg st.clock idx step st.context).rows)
              rw [last_completed_cursor_append_none 0 st.rows _
                (execute_step_rows_not_completed reg st.clock idx step st.context e
                  (by rw [execute_step_result]; exact hres))]
              exact h

/-! ## Registry lemmas -/

theorem regGet_regSet_self : ∀ (l : List (String × ActionImpl)) (k : String) (a : ActionImpl),
    regGet (regSet l k a) k = some a
  | [], k, a => by simp [regGet, regSet]
  | (k0, a0) :: tl, k, a => by
      by_cases h : k0 = k
      · simp [regGet, regSet, h]
      · simp [regGet, regSet, h, regGet_regSet_self tl k a]

theorem regGet_regSet_other : ∀ (l : List (String × ActionImpl)) (k k2 : String) (a : ActionImpl),
    ¬ k = k2 → regGet (regSet l k a) k2 = regGet l k2
  | [], k, k2, a, h => by simp [regGet, regSet, h]
  | (k0, a0) :: tl, k, k2, a, h => by
      by_cases h0 : k0 = k
      · subst h0
        simp [regGet, regSet, h]
      · simp only [regSet, if_neg h0, regGet]
        by_cases h1 : k0 = k2
        · simp [h1]
        · simp [h1, regGet_regSet_other tl k k2 a h]

theorem regSet_regSet_same : ∀ (l : List (String × ActionImpl)) (k : String) (a1 a2 : ActionImpl),
    regSet (regSet l k a1) k a2 = regSet l k a2
  | [], k, a1, a2 => by simp [regSet]
  | (k0, a0) :: tl, k, a1, a2 => by
      by_cases h : k0 = k
      · simp [regSet, h]
      · simp [regSet, h, regSet_regSet_same tl k a1 a2]

/-! ## Resolver scanner lemmas -/

theorem resolveCharsAux_fuel_eq (ctx : Ctx) :
    ∀ (f1 f2 : Nat) (cs : List Char), cs.length ≤ f1 → cs.length ≤ f2 →
      resolveCharsAux ctx f1 cs = resolveCharsAux ctx f2 cs
  | f1, f2, [], _, _ => by cases f1 <;> cases f2 <;> rfl
  | 0, f2, c :: cs, h1, _ => by simp at h1
  | f1 + 1, 0, c :: cs, _, h2 => by simp at h2
  | f1 + 1, f2 + 1, c1 :: rest1, h1, h2 => by
      unfold resolveCharsAux
      cases rest1 with
      | nil => rfl
      | cons c2 rest =>
          simp only [List.length_cons] at h1 h2
          show (if c1 = lbrace ∧ c2 = lbrace then
              match grabVar rest with
              | some (nm, rest2) => (tokenReplace ctx nm).toList ++ resolveCharsAux ctx f1 rest2
              | none => c1 :: resolveCharsAux ctx f1 (c2 :: rest)
            else c1 :: resolveCharsAux ctx f1 (c2 :: rest))
            = (if c1 = lbrace ∧ c2 = lbrace then
              match grabVar rest with
              | some (nm, rest2) => (tokenReplace ctx nm).toList ++ resolveCharsAux ctx f2 rest2
              | none => c1 :: resolveCharsAux ctx f2 (c2 :: rest)
            else c1 :: resolveCharsAux ctx f2 (c2 :: rest))
          by_cases hbr : c1 = lbrace ∧ c2 = lbrace
          · rw [if_pos hbr, if_pos hbr]
            cases hg : grabVar rest with
            | some p =>
                obtain ⟨nm, rest2⟩ := p
                have hlen := grabVar_length hg
                show (tokenReplace ctx nm).toList ++ resolveCharsAux ctx f1 rest2
                  = (tokenReplace ctx nm).toList ++ resolveCharsAux ctx f2 rest2
                rw [resolveCharsAux_fuel_eq ctx f1 f2 rest2 (by omega) (by omega)]
            | none =>
                show c1 :: resolveCharsAux ctx f1 (c2 :: rest)
                  = c1 :: resolveCharsAux ctx f2 (c2 :: rest)
                rw [resolveCharsAux_fuel_eq ctx f1 f2 (c2 :: rest)
                  (by simp; omega) (by simp; omega)]
          · rw [if_neg hbr, if_neg hbr]
            rw [resolveCharsAux_fuel_eq ctx f1 f2 (c2 :: rest)
              (by simp; omega) (by simp; omega)]

theorem takeWhile_no_rbrace (l2 : List Char) :
    ∀ (l1 : List Char), (∀ c ∈ l1, ¬ c = rbrace) →
      (l1 ++ rbrace :: l2).takeWhile (fun c => ¬ c = rbrace) = l1
  | [], _ => by simp [List.takeWhile_cons]
  | c :: l1, h => by
      have hc : ¬ c = rbrace := h c (by simp)
      have ih := takeWhile_no_rbrace l2 l1 (fun c2 hc2 => h c2 (by simp [hc2]))
      simp only [List.cons_append, List.takeWhile_cons]
      simp only [hc, decide_not, decide_eq_false_iff_not.mpr hc, Bool.not_false, if_true]
      simpa using ih

theorem dropWhile_no_rbrace (l2 : List Char) :
    ∀ (l1 : List Char), (∀ c ∈ l1, ¬ c = rbrace) →
      (l1 ++ rbrace :: l2).dropWhile (fun c => ¬ c = rbrace) = rbrace :: l2
  | [], _ => by simp [List.dropWhile_cons]
  | c :: l1, h => by
      have hc : ¬ c = rbrace := h c (by simp)
      have ih := dropWhile_no_rbrace l2 l1 (fun c2 hc2 => h c2 (by simp [hc2]))
      simp only [List.cons_append, List.dropWhile_cons]
      simp only [hc, decide_not, decide_eq_false_iff_not.mpr hc, Bool.not_false, if_true]
      simpa using ih

theorem grabVar_exact (name post : List Char) (hne : ¬ name = [])
    (hnb : ∀ c ∈ name, ¬ c = rbrace) :
    grabVar (name ++ rbrace :: rbrace :: post) = some (name, post) := by
  unfold grabVar
  rw [takeWhile_no_rbrace (rbrace :: post) name hnb,
    dropWhile_no_rbrace (rbrace :: post) name hnb]
  simp [hne]

/-- Definitional unfolding of one scanner step on two or more
characters. -/
theorem resolveCharsAux_cons (ctx : Ctx) (fuel : Nat) (c1 c2 : Char) (rest : List Char) :
    resolveCharsAux ctx (fuel + 1) (c1 :: c2 :: rest)
      = if c1 = lbrace ∧ c2 = lbrace then
          (match grabVar rest with
           | some (nm, rest2) => (tokenReplace ctx nm).toList ++ resolveCharsAux ctx fuel rest2
           | none => c1 :: resolveCharsAux ctx fuel (c2 :: rest))
        else c1 :: resolveCharsAux ctx fuel (c2 :: rest) := rfl

/-- A character list contains a match of the pattern
`\x7b\x7b[^\x7d]+\x7d\x7d`: somewhere an opening double brace is followed by a
nonempty run of non-close-brace characters and a closing double brace. -/
def HasToken (cs : List Char) : Prop :=
  ∃ a nm b, cs = a ++ lbrace :: lbrace :: (nm ++ rbrace :: rbrace :: b) ∧
    ¬ nm = [] ∧ ∀ c ∈ nm, ¬ c = rbrace

theorem dropWhile_head_false {p : Char → Bool} :
    ∀ (l : List Char) (x : Char) (xs : List Char), l.dropWhile p = x :: xs → p x = false
  | [], x, xs, h => by simp at h
  | c :: tl, x, xs, h => by
      by_cases hc : p c = true
      · rw [List.dropWhile_cons_of_pos hc] at h
        exact dropWhile_head_false tl x xs h
      · have hc2 : p c = false := by
          cases hpc : p c
          · rfl
          · exact absurd hpc hc
        rw [List.dropWhile_cons_of_neg (by rw [hc2]; simp)] at h
        cases h
        exact hc2

theorem grabVar_some_decomp {cs nm rest2 : List Char}
    (h : grabVar cs = some (nm, rest2)) :
    cs = nm ++ rbrace :: rbrace :: rest2 ∧ ¬ nm = [] ∧ ∀ c ∈ nm, ¬ c = rbrace := by
  have hsplit := cs.takeWhile_append_dropWhile (p := fun c => ¬ c = rbrace)
  unfold grabVar at h
  split at h
  · split_ifs at h with hnm hr2
    rename_i r1 r2 rest2a heq
    obtain ⟨hnmEq, hrest⟩ := Prod.mk.injEq .. ▸ Option.some.inj h
    have hr1 : r1 = rbrace := by
      have := dropWhile_head_false cs r1 (r2 :: rest2a) heq
      simpa using this
    refine ⟨?_, ?_, ?_⟩
    · rw [← hsplit, heq, hr1, hr2, hrest, hnmEq]
    · rw [← hnmEq]; exact hnm
    · intro c hcmem
      rw [← hnmEq] at hcmem
      have := List.mem_takeWhile_imp hcmem
      simpa using this
  · exact Option.noConfusion h

theorem hasToken_cons {c : Char} {cs : List Char} (h : HasToken cs) :
    HasToken (c :: cs) := by
  obtain ⟨a, nm, b, heq, hne, hnb⟩ := h
  exact ⟨c :: a, nm, b, by rw [heq]; rfl, hne, hnb⟩

theorem noToken_resolve (ctx : Ctx) :
    ∀ (fuel : Nat) (cs : List Char), ¬ HasToken cs → resolveCharsAux ctx fuel cs = cs
  | 0, cs, _ => rfl
  | fuel + 1, [], _ => rfl
  | fuel + 1, [c], _ => rfl
  | fuel + 1, c1 :: c2 :: rest, hno => by
      rw [resolveCharsAux_cons]
      have htail : ¬ HasToken (c2 :: rest) := fun ht => hno (hasToken_cons ht)
      by_cases hbr : c1 = lbrace ∧ c2 = lbrace
      · rw [if_pos hbr]
        cases hg : grabVar rest with
        | some p =>
            obtain ⟨nm, rest2⟩ := p
            obtain ⟨heq, hne, hnb⟩ := grabVar_some_decomp hg
            exact absurd ⟨[], nm, rest2, by
              rw [List.nil_append, hbr.1, hbr.2, heq], hne, hnb⟩ hno
        | none =>
            rw [noToken_resolve ctx fuel (c2 :: rest) htail]
      · rw [if_neg hbr]
        rw [noToken_resolve ctx fuel (c2 :: rest) htail]

theorem resolveChars_no_lbrace (ctx : Ctx) :
    ∀ (pre suffix : List Char), (∀ c ∈ pre, ¬ c = lbrace) →
      resolveCharsAux ctx (pre ++ suffix).length (pre ++ suffix)
        = pre ++ resolveCharsAux ctx suffix.length suffix
  | [], suffix, _ => by simp
  | c :: pre, suffix, h => by
      have hc : ¬ c = lbrace := h c (by simp)
      have ih := resolveChars_no_lbrace ctx pre suffix
        (fun c2 hc2 => h c2 (by simp [hc2]))
      show resolveCharsAux ctx ((pre ++ suffix).length + 1) (c :: (pre ++ suffix))
        = c :: (pre ++ resolveCharsAux ctx suffix.length suffix)
      cases hps : pre ++ suffix with
      | nil =>
          obtain ⟨hpre, hsuf⟩ := List.append_eq_nil.mp hps
          subst hpre
          subst hsuf
          rfl
      | cons c2 rest =>
          rw [resolveCharsAux_cons, if_neg (fun hand => hc hand.1)]
          show c :: resolveCharsAux ctx (c2 :: rest).length (c2 :: rest) = _
          rw [← hps, ih]

theorem resolveChars_token (ctx : Ctx) (name post : List Char) (hne : ¬ name = [])
    (hnb : ∀ c ∈ name, ¬ c = rbrace) :
    resolveCharsAux ctx (lbrace :: lbrace :: (name ++ rbrace :: rbrace :: post)).length
        (lbrace :: lbrace :: (name ++ rbrace :: rbrace :: post))
      = (tokenReplace ctx name).toList ++ resolveCharsAux ctx post.length post := by
  show resolveCharsAux ctx ((name ++ rbrace :: rbrace :: post).length + 1 + 1)
      (lbrace :: lbrace :: (name ++ rbrace :: rbrace :: post))
    = _
  rw [resolveCharsAux_cons, if_pos ⟨rfl, rfl⟩, grabVar_exact name post hne hnb]
  show (tokenReplace ctx name).toList
      ++ resolveCharsAux ctx ((name ++ rbrace :: rbrace :: post).length + 1) post
    = _
  rw [resolveCharsAux_fuel_eq ctx ((name ++ rbrace :: rbrace :: post).length + 1)
    post.length post (by simp [List.length_append]; omega) (by omega)]

/-! ## Specification-side condition evaluators (for claim C5) -/

/-- Python `s.endswith(needle)`. -/
def charsEndsWith (cs needle : List Char) : Bool :=
  charsStartsWith needle.reverse cs.reverse

/-- The condition evaluator exactly as the claim words it: the third
case fires only when the condition string ENDS with the text
`" exists"`, and the variable is obtained by stripping that suffix.
(The code instead tests `" exists" in condition` and deletes every
occurrence.) -/
def condition_spec_claim : Option String → Ctx → Bool
  | none, _ => true
  | some c, context =>
      if c = "" then true
      else if strContains c " == " then
        decide (pyStr ((context.get (pyStripStr (splitOnce c " == ").1)).getD .null)
          = stripQuoteChars (pyStripStr (splitOnce c " == ").2))
      else if strContains c " != " then
        decide (¬ pyStr ((context.get (pyStripStr (splitOnce c " != ").1)).getD .null)
          = stripQuoteChars (pyStripStr (splitOnce c " != ").2))
      else if charsEndsWith c.toList " exists".toList then
        match context.get (String.mk (pyStrip (c.toList.take (c.toList.length - 7)))) with
        | some val => decide (¬ val = .null)
        | none => false
      else pyTruthy ((context.get (pyStripStr c)).getD .null)

/-- The four-variant condition grammar of the spec (§4.3, §9). -/
inductive CondExpr where
  | always
  | eqCmp (v e : String)
  | neCmp (v e : String)
  | existsChk (v : String)
  | truthyChk (v : String)
  deriving DecidableEq

/-- Parse a step condition into the grammar, branch for branch as the
code does: missing or empty condition is `always`; `" == "` and `" != "`
split once on the operator, trim the variable and strip surrounding
quotes from the expected value; a condition CONTAINING `" exists"`
deletes every occurrence of that text and trims; anything else is a
truthiness test of the trimmed string. -/
def parse_condition : Option String → CondExpr
  | none => .always
  | some c =>
      if c = "" then .always
      else if strContains c " == " then
        .eqCmp (pyStripStr (splitOnce c " == ").1)
          (stripQuoteChars (pyStripStr (splitOnce c " == ").2))
      else if strContains c " != " then
        .neCmp (pyStripStr (splitOnce c " != ").1)
          (stripQuoteChars (pyStripStr (splitOnce c " != ").2))
      else if strContains c " exists" then
        .existsChk (String.mk (pyStrip (replaceAllChars c.toList " exists".toList [])))
      else .truthyChk (pyStripStr c)

/-- Evaluate a parsed condition against a context. -/
def eval_cond_expr (context : Ctx) : CondExpr → Bool
  | .always => true
  | .eqCmp v e => decide (pyStr ((context.get v).getD .null) = e)
  | .neCmp v e => decide (¬ pyStr ((context.get v).getD .null) = e)
  | .existsChk v =>
      match context.get v with
      | some val => decide (¬ val = .null)
      | none => false
  | .truthyChk v => pyTruthy ((context.get v).getD .null)

/-! ## Concrete actions and workflows used by witnesses and counterexamples -/

/-- A trivial action that succeeds and returns its raw parameter dict. -/
def echoAction : ActionImpl :=
  { action_type := "echo",
    validate_parameters := fun _ => .ok (),
    execute := fun parameters _ => .ok (.obj parameters) }

/-- An action whose `execute` always raises. -/
def boomAction : ActionImpl :=
  { action_type := "boom",
    validate_parameters := fun _ => .ok (),
    execute := fun _ _ => .error "boom" }

/-- A registry holding `echo` and `boom`. -/
def demoRegistry : ActionRegistry :=
  ActionRegistry.register (ActionRegistry.register {} echoAction) boomAction

/-- A one-step echo workflow. -/
def demoStepEcho : StepDef :=
  { action := some "echo", parameters := .cons "v" (.str "hi") .nil,
    output_variable := some "greeting" }

def demoWorkflow1 : Workflow :=
  { id := 1, steps := [demoStepEcho] }

/-- An echo step followed by a failing step. -/
def demoWorkflowFail : Workflow :=
  { id := 2, steps := [demoStepEcho, { action := some "boom" }] }

/-- A single step naming an unregistered action type. -/
def demoWorkflowUnknown : Workflow :=
  { id := 3, steps := [{ action := some "nope" }] }

/-- An echo step followed by a step whose condition is false. -/
def demoWorkflowSkip : Workflow :=
  { id := 4,
    steps := [demoStepEcho,
      { action := some "echo", condition := some "missing_flag" }] }

/-! ## Claim C1 -/

/-- C1: for every enabled workflow with at least one step, when every
step's condition evaluates to true and no action's validate or execute
raises (`StepsAllOk`), `execute_workflow` returns normally with status
`completed`, `current_step` equal to the number of steps, and a non-null
`output_data` equal to the final context: the seeded context (workflow
default variables overlaid by the caller's input, `seed_context`) with
each step's result bound under its declared or defaulted output-variable
name (`ctx_after`). -/
theorem wf_all_ok_completes
    (reg : ActionRegistry) (workflow : Workflow) (workflow_id : Nat)
    (input_data : Option JsonFields)
    (hen : workflow.enabled = true)
    (hne : ¬ workflow.steps = [])
    (hok : StepsAllOk reg workflow.steps 0 (seed_context workflow input_data)) :
    ∃ st, execute_workflow reg (some workflow) workflow_id input_data = .ran st (.ok ()) ∧
      st.execution.status = "completed" ∧
      st.execution.current_step = workflow.steps.length ∧
      st.execution.output_data
        = some (ctx_after reg workflow.steps 0 (seed_context workflow input_data)) := by
  simp only [execute_workflow, hen]
  rw [if_neg (by simp)]
  obtain ⟨h1, h2, h3, h4, h5, h6⟩ := run_steps_all_ok reg workflow.steps 0
    { execution :=
        { workflow_id := workflow_id, status := "running",
          input_data := input_data.getD .nil, context := .nil, output_data := none,
          current_step := 0, error_message := none, error_step := none,
          started_at := some 0, completed_at := none, duration_ms := none },
      rows := [], context := seed_context workflow input_data, clock := 1 } hok
  split
  · rename_i st e heq
    rw [heq] at h1
    simp at h1
  · rename_i st u heq
    rw [heq] at h2 h6
    refine ⟨_, rfl, rfl, ?_, ?_⟩
    · show st.execution.current_step = workflow.steps.length
      rw [h6]
      have : workflow.steps.isEmpty = false := by
        cases hsteps : workflow.steps with
        | nil => exact absurd hsteps hne
        | cons a b => rfl
      rw [this]
      simp
    · show some st.context = _
      rw [h2]

/-- Witness for C1: a concrete one-step echo workflow run with input
`\x7bmsg: hi\x7d` completes. -/
theorem wf_all_ok_completes_witness :
    ∃ st, execute_workflow demoRegistry (some demoWorkflow1) 1
        (some (.cons "msg" (.str "hi") .nil)) = .ran st (.ok ()) ∧
      st.execution.status = "completed" ∧
      st.execution.current_step = demoWorkflow1.steps.length ∧
      st.execution.output_data
        = some (ctx_after demoRegistry demoWorkflow1.steps 0
            (seed_context demoWorkflow1 (some (.cons "msg" (.str "hi") .nil)))) :=
  wf_all_ok_completes demoRegistry demoWorkflow1 1 (some (.cons "msg" (.str "hi") .nil))
    (by decide) (by decide)
    ⟨by decide, .obj (.cons "v" (.str "hi") .nil), by decide, trivial⟩

/-! ## Claim C2 -/

/-- C2: in every run whose first `pre.length` steps are each skipped or
successful and whose next step runs and raises (in validate or execute),
the execution ends with status `failed`, `error_step` equal to that
step's index, a non-null `error_message`, a stamped end timestamp, and
no Step Execution row is ever created for any step with a larger index
(every persisted row has `step_index ≤ pre.length`). -/
theorem wf_step_failure_aborts
    (reg : ActionRegistry) (workflow : Workflow) (workflow_id : Nat)
    (input_data : Option JsonFields) (pre : List StepDef) (stepK : StepDef)
    (post : List StepDef) (e : String)
    (hen : workflow.enabled = true)
    (hsteps : workflow.steps = pre ++ stepK :: post)
    (hpre : StepsNoFail reg pre 0 (seed_context workflow input_data))
    (hcond : should_execute_step stepK
        (ctx_after reg pre 0 (seed_context workflow input_data)) = true)
    (herr : step_attempt reg pre.length stepK
        (ctx_after reg pre 0 (seed_context workflow input_data)) = .error e) :
    ∃ st, execute_workflow reg (some workflow) workflow_id input_data = .ran st (.error e) ∧
      st.execution.status = "failed" ∧
      st.execution.error_step = some pre.length ∧
      st.execution.error_message = some e ∧
      st.execution.completed_at.isSome = true ∧
      ∀ r ∈ st.rows, r.step_index ≤ pre.length := by
  simp only [execute_workflow, hen]
  rw [if_neg (by simp)]
  rw [hsteps]
  obtain ⟨st2, heq, hctx, h3, h4, h5, h6, h7, nr, hrows, hmem⟩ :=
    run_steps_no_fail reg pre (stepK :: post) 0
      { execution :=
          { workflow_id := workflow_id, status := "running",
            input_data := input_data.getD .nil, context := .nil, output_data := none,
            current_step := 0, error_message := none, error_step := none,
            started_at := some 0, completed_at := none, duration_ms := none },
        rows := [], context := seed_context workflow input_data, clock := 1 } hpre
  simp only [Nat.zero_add] at heq hmem
  rw [heq]
  have hcond2 : should_execute_step stepK st2.context = true := by
    rw [hctx]
    exact hcond
  have herr2 : step_attempt reg pre.length stepK st2.context = .error e := by
    rw [hctx]
    exact herr
  rw [run_steps_cons_err reg stepK post pre.length st2 e _ rfl hcond2 herr2]
  refine ⟨_, rfl, rfl, rfl, rfl, rfl, ?_⟩
  intro r hr
  have hr2 : r ∈ st2.rows
      ++ (execute_step reg st2.clock pre.length stepK st2.context).rows := hr
  rcases List.mem_append.mp hr2 with hr3 | hr3
  · rw [hrows] at hr3
    simp only [List.nil_append] at hr3
    exact Nat.le_of_lt (hmem r hr3)
  · exact Nat.le_of_eq (execute_step_rows_mem reg st2.clock pre.length stepK st2.context r hr3)

/-- Witness for C2: the two-step workflow whose second action raises
`boom` fails at index 1 with no later rows. -/
theorem wf_step_failure_aborts_witness :
    ∃ st, execute_workflow demoRegistry (some demoWorkflowFail) 2 none
        = .ran st (.error "boom") ∧
      st.execution.status = "failed" ∧
      st.execution.error_step = some [demoStepEcho].length ∧
      st.execution.error_message = some "boom" ∧
      st.execution.completed_at.isSome = true ∧
      ∀ r ∈ st.rows, r.step_index ≤ [demoStepEcho].length :=
  wf_step_failure_aborts demoRegistry demoWorkflowFail 2 none [demoStepEcho]
    { action := some "boom" } [] "boom" (by decide) (by decide)
    (Or.inr ⟨by decide, .obj (.cons "v" (.str "hi") .nil), by decide, trivial⟩)
    (by decide) (by decide)

/-! ## Claim C3 -/

/-- C3 counterexample: the claim says the step runner passes the
RESOLVED parameters to `action.execute`.  In fact an echo action run by
`execute_step` with parameter `v = "\x7b\x7bx\x7d\x7d"` under context `x = 1`
receives the raw, unresolved mapping, which differs from what the
variable resolver would have produced. -/
theorem step_runner_resolved_params_counterexample :
    (execute_step demoRegistry 0 0
        { action := some "echo",
          parameters := .cons "v" (.str "\x7b\x7bx\x7d\x7d") .nil }
        (.cons "x" (.num 1) .nil)).result
      = .ok (.obj (.cons "v" (.str "\x7b\x7bx\x7d\x7d") .nil)) ∧
    resolve_variables (.cons "x" (.num 1) .nil)
        (.obj (.cons "v" (.str "\x7b\x7bx\x7d\x7d") .nil))
      = .obj (.cons "v" (.str "1") .nil) ∧
    ¬ (JsonVal.obj (.cons "v" (.str "\x7b\x7bx\x7d\x7d") .nil)
        = .obj (.cons "v" (.str "1") .nil)) := by
  refine ⟨?_, by decide, by decide⟩
  rfl

/-- C3 amended: the step runner validates and then calls
`action.execute` on the RAW parameter mapping (`run_action` on
`step.parameters`); variable resolution is not performed by the runner
but inside individual action handlers — e.g. the LLM-query handler
resolves its `prompt` and `system_prompt` parameters against the
context before calling the external model. -/
theorem step_runner_passes_raw_params :
    (∀ (reg : ActionRegistry) (clk idx : Nat) (step : StepDef) (ctx : Ctx)
        (ty : String) (action : ActionImpl),
      step.action = some ty → ¬ ty = "" → reg.get ty = some action →
      (execute_step reg clk idx step ctx).result = run_action action step.parameters ctx) ∧
    (∀ (llm : JsonVal → JsonVal → Except String String) (parameters : JsonFields)
        (context : Ctx) (p : JsonVal),
      parameters.get "prompt" = some p →
      (llm_query_action llm).execute parameters context
        = (match llm (resolve_variables context p)
            (resolve_variables context
              ((parameters.get "system_prompt").getD
                (.str "You are a helpful AI assistant."))) with
          | .error err => .error err
          | .ok response =>
              .ok (.obj (.cons "response" (.str response)
                (.cons "tokens_used" (.num (pyWordCount response)) .nil))))) := by
  constructor
  · intro reg clk idx step ctx ty action hty hne hget
    rw [execute_step_result]
    unfold step_attempt
    rw [hty]
    simp only [hne, if_false]
    rw [hget]
  · intro llm parameters context p hp
    simp only [llm_query_action]
    rw [hp]

/-- Witness for the amended C3 at concrete inputs. -/
theorem step_runner_passes_raw_params_witness :
    (execute_step demoRegistry 0 0 demoStepEcho (.cons "x" (.num 1) .nil)).result
      = run_action echoAction demoStepEcho.parameters (.cons "x" (.num 1) .nil) ∧
    (llm_query_action (fun pr _ => .ok (pyStr pr))).execute
        (.cons "prompt" (.str "\x7b\x7bx\x7d\x7d") .nil) (.cons "x" (.num 1) .nil)
      = .ok (.obj (.cons "response" (.str "1") (.cons "tokens_used" (.num 1) .nil))) :=
  ⟨step_runner_passes_raw_params.1 demoRegistry 0 0 demoStepEcho (.cons "x" (.num 1) .nil)
      "echo" echoAction rfl (by decide) rfl,
    (step_runner_passes_raw_params.2 (fun pr _ => .ok (pyStr pr))
        (.cons "prompt" (.str "\x7b\x7bx\x7d\x7d") .nil) (.cons "x" (.num 1) .nil)
        (.str "\x7b\x7bx\x7d\x7d") rfl).trans (by decide)⟩

/-! ## Claim C4 -/

theorem noToken_of_no_lbrace {cs : List Char} (h : ∀ c ∈ cs, ¬ c = lbrace) :
    ¬ HasToken cs := by
  rintro ⟨a, nm, b, heq, _, _⟩
  have hmem : lbrace ∈ cs := by
    rw [heq]
    simp
  exact h lbrace hmem rfl

/-- C4: the variable resolver (i) returns `"\x7b\x7bmissing.path\x7d\x7d"`
unchanged on the empty context, (ii) returns any string with no
`\x7b\x7b...\x7d\x7d` token unchanged, (iii) rewrites each token
(a brace-free prefix, then `\x7b\x7bname\x7d\x7d`) to the replacer's output
and continues scanning, and the replacer (iv) substitutes the Python
string form of a non-null lookup and (v) leaves the token
character-for-character unchanged when the dotted-path lookup misses or
yields null. -/
theorem resolve_variables_policy :
    (resolveString .nil "\x7b\x7bmissing.path\x7d\x7d" = "\x7b\x7bmissing.path\x7d\x7d") ∧
    (∀ (ctx : Ctx) (s : String), ¬ HasToken s.toList → resolveString ctx s = s) ∧
    (∀ (ctx : Ctx) (pre name post : List Char),
      (∀ c ∈ pre, ¬ c = lbrace) → ¬ name = [] → (∀ c ∈ name, ¬ c = rbrace) →
      resolveCharsAux ctx
          (pre ++ lbrace :: lbrace :: (name ++ rbrace :: rbrace :: post)).length
          (pre ++ lbrace :: lbrace :: (name ++ rbrace :: rbrace :: post))
        = pre ++ ((tokenReplace ctx name).toList ++ resolveCharsAux ctx post.length post)) ∧
    (∀ (ctx : Ctx) (name : List Char) (v : JsonVal),
      dotLookup (.obj ctx) ((splitAllChars (pyStrip name) [Char.ofNat 46]).map String.mk)
        = some v →
      ¬ v = .null → tokenReplace ctx name = pyStr v) ∧
    (∀ (ctx : Ctx) (name : List Char),
      dotLookup (.obj ctx) ((splitAllChars (pyStrip name) [Char.ofNat 46]).map String.mk)
          = none
        ∨ dotLookup (.obj ctx) ((splitAllChars (pyStrip name) [Char.ofNat 46]).map String.mk)
          = some .null →
      tokenReplace ctx name = braceWrap name) := by
  refine ⟨by rfl, ?_, ?_, ?_, ?_⟩
  · intro ctx s h
    unfold resolveString
    rw [noToken_resolve ctx _ _ h]
    cases s
    rfl
  · intro ctx pre name post hpre hne hnb
    rw [resolveChars_no_lbrace ctx pre _ hpre,
      resolveChars_token ctx name post hne hnb]
  · intro ctx name v hv hnn
    simp only [tokenReplace]
    rw [hv]
    simp [hnn]
  · intro ctx name hv
    simp only [tokenReplace]
    cases hv with
    | inl hv => rw [hv]
    | inr hv =>
        rw [hv]
        simp

/-- Witness for C4: a brace-free string is unchanged, and
`"a\x7b\x7bx\x7d\x7db"` under `x = 1` rewrites its token. -/
theorem resolve_variables_policy_witness :
    resolveString (.cons "x" (.num 1) .nil) "plain text" = "plain text" ∧
    resolveCharsAux (.cons "x" (.num 1) .nil)
        ("a".toList ++ lbrace :: lbrace :: ("x".toList ++ rbrace :: rbrace :: "b".toList)).length
        ("a".toList ++ lbrace :: lbrace :: ("x".toList ++ rbrace :: rbrace :: "b".toList))
      = "a".toList ++ ((tokenReplace (.cons "x" (.num 1) .nil) "x".toList).toList
          ++ resolveCharsAux (.cons "x" (.num 1) .nil) "b".toList.length "b".toList) :=
  ⟨resolve_variables_policy.2.1 (.cons "x" (.num 1) .nil) "plain text"
      (noToken_of_no_lbrace (by decide)),
    resolve_variables_policy.2.2.1 (.cons "x" (.num 1) .nil) "a".toList "x".toList "b".toList
      (by decide) (by decide) (by decide)⟩

/-! ## Claim C5 -/

/-- C5 counterexample: the claim's reference definition handles
`" exists"` only when the condition ENDS with it.  The code instead
tests containment and deletes every occurrence: on condition
`"a exists b"` with context `\x7b"a exists b": true\x7d` the code looks up the
mangled key `"a b"` and skips, while the claim's reference definition
falls to the truthiness branch and runs. -/
theorem condition_exists_claim_counterexample :
    should_execute_step
        { action := some "echo", condition := some "a exists b" }
        (.cons "a exists b" (.bool true) .nil) = false ∧
    condition_spec_claim (some "a exists b")
        (.cons "a exists b" (.bool true) .nil) = true := by
  constructor
  · rfl
  · rfl

/-- C5 amended: the condition evaluator equals the reference grammar
with cases tried in order — no or empty condition runs; `" == "` splits
once, trims, strips surrounding quotes and compares the Python string
form of the looked-up value; `" != "` is the inverse; a condition
CONTAINING `" exists"` (rather than ending with it) removes every
occurrence of that text, trims, and runs iff the key is present with a
non-null value; otherwise the trimmed string is looked up and tested for
Python truthiness.  (The totality of the evaluator replaces the
claim's "any exception yields run" clause.) -/
theorem condition_matches_parsed_grammar :
    ∀ (step : StepDef) (context : Ctx),
      should_execute_step step context
        = eval_cond_expr context (parse_condition step.condition) := by
  intro step context
  unfold should_execute_step parse_condition
  cases step.condition with
  | none => rfl
  | some c =>
      by_cases hc : c = ""
      · simp [hc, eval_cond_expr]
      · simp only [hc, if_false]
        unfold evalCondition
        by_cases h1 : strContains c " == " = true
        · simp [h1, eval_cond_expr]
        · simp only [h1, if_false, Bool.false_eq_true]
          by_cases h2 : strContains c " != " = true
          · simp [h2, eval_cond_expr]
          · simp only [h2, if_false, Bool.false_eq_true]
            by_cases h3 : strContains c " exists" = true
            · simp [h3, eval_cond_expr]
            · simp [h3, eval_cond_expr]

/-! ## Claim C6 -/

/-- C6: `cancel_execution` succeeds iff the execution exists and its
status is `pending` or `running`; on success the returned row is
`cancelled` with the end timestamp stamped and a duration derived only
when a start timestamp exists, and cancelling the result again always
fails; in every other case it raises (and, being pure here, leaves the
row unchanged by construction). -/
theorem cancel_execution_spec (execution_id : Nat) (e : Execution) (now now2 : Nat) :
    ((e.status = "pending" ∨ e.status = "running") →
      ∃ e2, cancel_execution execution_id (some e) now = .ok e2 ∧
        e2.status = "cancelled" ∧
        e2.completed_at = some now ∧
        (∀ s, e.started_at = some s → e2.duration_ms = some (durationMs s now)) ∧
        (e.started_at = none → e2.duration_ms = e.duration_ms) ∧
        ∃ msg, cancel_execution execution_id (some e2) now2 = .error msg) ∧
    (¬ (e.status = "pending" ∨ e.status = "running") →
      ∃ msg, cancel_execution execution_id (some e) now = .error msg) ∧
    (∃ msg, cancel_execution execution_id none now = .error msg) := by
  refine ⟨?_, ?_, ⟨_, rfl⟩⟩
  · intro h
    simp only [cancel_execution]
    rw [if_pos h]
    refine ⟨_, rfl, rfl, rfl, ?_, ?_, ?_⟩
    · intro s hs
      show stamp_duration e now = _
      unfold stamp_duration
      rw [hs]
    · intro hs
      show stamp_duration e now = _
      unfold stamp_duration
      rw [hs]
    · simp only [cancel_execution]
      rw [if_neg (by simp)]
      exact ⟨_, rfl⟩
  · intro h
    simp only [cancel_execution]
    rw [if_neg h]
    exact ⟨_, rfl⟩

/-- Witness for C6 on a concrete running execution. -/
theorem cancel_execution_spec_witness :
    ∃ e2, cancel_execution 7 (some
        { workflow_id := 1, status := "running", input_data := .nil, context := .nil,
          output_data := none, current_step := 0, error_message := none,
          error_step := none, started_at := some 5, completed_at := none,
          duration_ms := none }) 10 = .ok e2 ∧
      e2.status = "cancelled" ∧
      e2.completed_at = some 10 ∧
      (∀ s, (some 5 : Option Nat) = some s → e2.duration_ms = some (durationMs s 10)) ∧
      ((some 5 : Option Nat) = none → e2.duration_ms = (none : Option Int)) ∧
      ∃ msg, cancel_execution 7 (some e2) 11 = .error msg :=
  (cancel_execution_spec 7
    { workflow_id := 1, status := "running", input_data := .nil, context := .nil,
      output_data := none, current_step := 0, error_message := none,
      error_step := none, started_at := some 5, completed_at := none,
      duration_ms := none } 10 11).1 (Or.inr rfl)

instance : DecidableEq RunOutcome := fun a b =>
  match a, b with
  | .rejected m1, .rejected m2 =>
      if h : m1 = m2 then isTrue (by rw [h])
      else isFalse (fun hh => h (by cases hh; rfl))
  | .ran s1 r1, .ran s2 r2 =>
      if h : s1 = s2 ∧ r1 = r2 then isTrue (by rw [h.1, h.2])
      else isFalse (fun hh => h (by cases hh; exact ⟨rfl, rfl⟩))
  | .rejected _, .ran _ _ => isFalse (fun h => by cases h)
  | .ran _ _, .rejected _ => isFalse (fun h => by cases h)

/-! ## Claim C7 -/

/-- C7 counterexample: a run whose only step names the unregistered
action type `nope` aborts with the error recorded on the Execution, but
NO Step Execution row at all is created — the run-time check happens
before the `running` row is inserted — refuting the claim that an
`UnknownActionError` is recorded on a failed Step Execution row. -/
theorem unknown_action_no_row_counterexample :
    ranResult (execute_workflow demoRegistry (some demoWorkflowUnknown) 3 none)
      = .error "Unknown action type: nope" ∧
    (ranState (execute_workflow demoRegistry
        (some demoWorkflowUnknown) 3 none)).execution.error_step = some 0 ∧
    (ranState (execute_workflow demoRegistry
        (some demoWorkflowUnknown) 3 none)).execution.error_message
      = some "Unknown action type: nope" ∧
    (ranState (execute_workflow demoRegistry
        (some demoWorkflowUnknown) 3 none)).rows = [] := by
  refine ⟨?_, ?_, ?_, ?_⟩ <;> rfl

/-- C7 amended: every run-time step failure aborts the run, is
re-signaled to the caller, and is recorded on the Execution
(`error_message`, `error_step`); a validate or execute failure of a
resolved action is additionally recorded on a `failed` Step Execution
row for the offending step, while an action type missing from the
registry aborts and is recorded on the Execution only — no Step
Execution row is created for the offending step. -/
theorem runtime_error_recording :
    (∀ (reg : ActionRegistry) (workflow : Workflow) (workflow_id : Nat)
        (input_data : Option JsonFields) (pre : List StepDef) (stepK : StepDef)
        (post : List StepDef) (ty : String) (action : ActionImpl) (e : String),
      workflow.enabled = true →
      workflow.steps = pre ++ stepK :: post →
      StepsNoFail reg pre 0 (seed_context workflow input_data) →
      should_execute_step stepK
        (ctx_after reg pre 0 (seed_context workflow input_data)) = true →
      stepK.action = some ty → ¬ ty = "" → reg.get ty = some action →
      step_attempt reg pre.length stepK
        (ctx_after reg pre 0 (seed_context workflow input_data)) = .error e →
      ∃ st, execute_workflow reg (some workflow) workflow_id input_data
          = .ran st (.error e) ∧
        st.execution.error_message = some e ∧
        st.execution.error_step = some pre.length ∧
        ∃ row, row ∈ st.rows ∧ row.step_index = pre.length ∧
          row.status = "failed" ∧ row.error_message = some e) ∧
    (∀ (reg : ActionRegistry) (workflow : Workflow) (workflow_id : Nat)
        (input_data : Option JsonFields) (pre : List StepDef) (stepK : StepDef)
        (post : List StepDef) (ty : String),
      workflow.enabled = true →
      workflow.steps = pre ++ stepK :: post →
      StepsNoFail reg pre 0 (seed_context workflow input_data) →
      should_execute_step stepK
        (ctx_after reg pre 0 (seed_context workflow input_data)) = true →
      stepK.action = some ty → ¬ ty = "" → reg.get ty = none →
      ∃ st, execute_workflow reg (some workflow) workflow_id input_data
          = .ran st (.error ("Unknown action type: " ++ ty)) ∧
        st.execution.error_message = some ("Unknown action type: " ++ ty) ∧
        st.execution.error_step = some pre.length ∧
        ∀ row ∈ st.rows, ¬ row.step_index = pre.length) := by
  constructor
  · intro reg workflow workflow_id input_data pre stepK post ty action e
      hen hsteps hpre hcond hty hne hget herr
    simp only [execute_workflow, hen]
    rw [if_neg (by simp)]
    rw [hsteps]
    obtain ⟨st2, heq, hctx, h3, h4, h5, h6, h7, nr, hrows, hmem⟩ :=
      run_steps_no_fail reg pre (stepK :: post) 0
        { execution :=
            { workflow_id := workflow_id, status := "running",
              input_data := input_data.getD .nil, context := .nil, output_data := none,
              current_step := 0, error_message := none, error_step := none,
              started_at := some 0, completed_at := none, duration_ms := none },
          rows := [], context := seed_context workflow input_data, clock := 1 } hpre
    simp only [Nat.zero_add] at heq hmem
    rw [heq]
    have hcond2 : should_execute_step stepK st2.context = true := by
      rw [hctx]
      exact hcond
    have herr2 : step_attempt reg pre.length stepK st2.context = .error e := by
      rw [hctx]
      exact herr
    rw [run_steps_cons_err reg stepK post pre.length st2 e _ rfl hcond2 herr2]
    obtain ⟨row, hrowEq, hst, hidx, hmsg⟩ :=
      execute_step_rows_of_err_resolved reg st2.clock pre.length stepK st2.context
        ty action e hty hne hget (by rw [execute_step_result]; exact herr2)
    refine ⟨_, rfl, rfl, rfl, row, ?_, hidx, hst, hmsg⟩
    show row ∈ st2.rows ++ (execute_step reg st2.clock pre.length stepK st2.context).rows
    rw [hrowEq]
    simp
  · intro reg workflow workflow_id input_data pre stepK post ty
      hen hsteps hpre hcond hty hne hget
    have herr : step_attempt reg pre.length stepK
        (ctx_after reg pre 0 (seed_context workflow input_data))
        = .error ("Unknown action type: " ++ ty) := by
      unfold step_attempt
      rw [hty]
      simp only [hne, if_false]
      rw [hget]
    simp only [execute_workflow, hen]
    rw [if_neg (by simp)]
    rw [hsteps]
    obtain ⟨st2, heq, hctx, h3, h4, h5, h6, h7, nr, hrows, hmem⟩ :=
      run_steps_no_fail reg pre (stepK :: post) 0
        { execution :=
            { workflow_id := workflow_id, status := "running",
              input_data := input_data.getD .nil, context := .nil, output_data := none,
              current_step := 0, error_message := none, error_step := none,
              started_at := some 0, completed_at := none, duration_ms := none },
          rows := [], context := seed_context workflow input_data, clock := 1 } hpre
    simp only [Nat.zero_add] at heq hmem
    rw [heq]
    have hcond2 : should_execute_step stepK st2.context = true := by
      rw [hctx]
      exact hcond
    have herr2 : step_attempt reg pre.length stepK st2.context
        = .error ("Unknown action type: " ++ ty) := by
      rw [hctx]
      exact herr
    rw [run_steps_cons_err reg stepK post pre.length st2 _ _ rfl hcond2 herr2]
    refine ⟨_, rfl, rfl, rfl, ?_⟩
    intro row hrow
    have hrow2 : row ∈ st2.rows
        ++ (execute_step reg st2.clock pre.length stepK st2.context).rows := hrow
    obtain ⟨hempty, _⟩ :=
      execute_step_rows_of_unknown reg st2.clock pre.length stepK st2.context ty
        hty hne hget
    rw [hempty, List.append_nil] at hrow2
    rw [hrows] at hrow2
    simp only [List.nil_append] at hrow2
    exact Nat.ne_of_lt (hmem row hrow2)

/-- Witness for C7 at the concrete unknown-action workflow. -/
theorem runtime_error_recording_witness :
    ∃ st, execute_workflow demoRegistry (some demoWorkflowUnknown) 3 none
        = .ran st (.error ("Unknown action type: " ++ "nope")) ∧
      st.execution.error_message = some ("Unknown action type: " ++ "nope") ∧
      st.execution.error_step = some (List.length ([] : List StepDef)) ∧
      ∀ row ∈ st.rows, ¬ row.step_index = List.length ([] : List StepDef) :=
  runtime_error_recording.2 demoRegistry demoWorkflowUnknown 3 none []
    { action := some "nope" } [] "nope" rfl rfl trivial rfl rfl (by decide) rfl

/-! ## Claim C8 -/

/-- C8: a step whose condition evaluates to false leaves the run state
unchanged except for appending exactly one Step Execution row — with
status `skipped`, the step's index and raw parameters, and no start
timestamp, end timestamp or output — and the loop continues with the
next step; in particular neither the context nor `current_step` nor any
output binding is touched. -/
theorem skipped_step_frame (reg : ActionRegistry) (step : StepDef) (rest : List StepDef)
    (idx : Nat) (st : RunState)
    (hcond : should_execute_step step st.context = false) :
    run_steps reg (step :: rest) idx st
      = run_steps reg rest (idx + 1)
          { st with rows := st.rows ++ [record_step_skipped idx step] } ∧
    (record_step_skipped idx step).status = "skipped" ∧
    (record_step_skipped idx step).step_index = idx ∧
    (record_step_skipped idx step).parameters = step.parameters ∧
    (record_step_skipped idx step).started_at = none ∧
    (record_step_skipped idx step).completed_at = none ∧
    (record_step_skipped idx step).output_data = none :=
  ⟨run_steps_cons_skip reg step rest idx st hcond, rfl, rfl, rfl, rfl, rfl, rfl⟩

/-- Witness for C8 on a concrete skipped step. -/
theorem skipped_step_frame_witness :
    run_steps demoRegistry
        [{ action := some "echo", condition := some "missing_flag" }] 1 dummyState
      = run_steps demoRegistry [] 2
          { dummyState with rows := dummyState.rows
              ++ [record_step_skipped 1
                    { action := some "echo", condition := some "missing_flag" }] } ∧
    (record_step_skipped 1
        { action := some "echo", condition := some "missing_flag" }).status = "skipped" ∧
    (record_step_skipped 1
        { action := some "echo", condition := some "missing_flag" }).step_index = 1 ∧
    (record_step_skipped 1
        { action := some "echo", condition := some "missing_flag" }).parameters
      = ({ action := some "echo", condition := some "missing_flag" } : StepDef).parameters ∧
    (record_step_skipped 1
        { action := some "echo", condition := some "missing_flag" }).started_at = none ∧
    (record_step_skipped 1
        { action := some "echo", condition := some "missing_flag" }).completed_at = none ∧
    (record_step_skipped 1
        { action := some "echo", condition := some "missing_flag" }).output_data = none :=
  skipped_step_frame demoRegistry
    { action := some "echo", condition := some "missing_flag" } [] 1 dummyState (by decide)

/-! ## Claim C9 -/

/-- C9: registering twice under the same action-type string raises no
duplicate-key error (`register` is total by construction); the second
registration replaces the first in the registry mapping, every
subsequent `get` of that type returns the second registration's action
(also after unrelated registrations), and `get` of an unregistered type
returns `none` rather than raising. -/
theorem registry_last_writer_wins (r : ActionRegistry) (a1 a2 b : ActionImpl)
    (hsame : a1.action_type = a2.action_type)
    (hb : ¬ b.action_type = a2.action_type) :
    ((r.register a1).register a2).get a2.action_type = some a2 ∧
    ((r.register a1).register a2).actions = (r.register a2).actions ∧
    (((r.register a1).register a2).register b).get a2.action_type = some a2 ∧
    (∀ t, r.is_registered t = false → r.get t = none) := by
  refine ⟨?_, ?_, ?_, ?_⟩
  · exact regGet_regSet_self ..
  · show regSet (regSet r.actions a1.action_type a1) a2.action_type a2
      = regSet r.actions a2.action_type a2
    rw [hsame]
    exact regSet_regSet_same ..
  · show regGet (regSet (regSet (regSet r.actions a1.action_type a1)
        a2.action_type a2) b.action_type b) a2.action_type = some a2
    rw [regGet_regSet_other _ _ _ _ hb]
    exact regGet_regSet_self ..
  · intro t ht
    show regGet r.actions t = none
    cases hg : regGet r.actions t with
    | none => rfl
    | some a =>
        unfold ActionRegistry.is_registered at ht
        rw [hg] at ht
        simp at ht

/-- A second, different action also registered under type `echo`. -/
def echoAction2 : ActionImpl :=
  { action_type := "echo",
    validate_parameters := fun _ => .ok (),
    execute := fun _ _ => .ok .null }

/-- Witness for C9 with two distinct registrations under `echo`. -/
theorem registry_last_writer_wins_witness :
    (((ActionRegistry.mk []).register echoAction).register echoAction2).get
        echoAction2.action_type = some echoAction2 ∧
    (((ActionRegistry.mk []).register echoAction).register echoAction2).actions
      = ((ActionRegistry.mk []).register echoAction2).actions ∧
    ((((ActionRegistry.mk []).register echoAction).register echoAction2).register
        boomAction).get echoAction2.action_type = some echoAction2 ∧
    (∀ t, (ActionRegistry.mk []).is_registered t = false
      → (ActionRegistry.mk []).get t = none) :=
  registry_last_writer_wins (ActionRegistry.mk []) echoAction echoAction2 boomAction
    rfl (by decide)

/-! ## Claim C10 -/

/-- C10: in every run that creates an Execution, the final
`current_step` equals one plus the index of the last successfully
executed (`completed`) step row — `0` when none executed — because the
cursor advances only on success and skipped steps leave it unchanged;
consequently a `completed` execution whose trailing steps were skipped
ends with `current_step` strictly below the number of steps, as the
concrete two-step run in the second conjunct shows. -/
theorem current_step_tracks_last_success :
    (∀ (reg : ActionRegistry) (workflow : Workflow) (workflow_id : Nat)
        (input_data : Option JsonFields) (st : RunState) (r : Except String Unit),
      execute_workflow reg (some workflow) workflow_id input_data = .ran st r →
      st.execution.current_step = last_completed_cursor 0 st.rows) ∧
    (∃ st, execute_workflow demoRegistry (some demoWorkflowSkip) 4 none
        = .ran st (.ok ()) ∧
      st.execution.status = "completed" ∧
      st.execution.current_step = 1 ∧
      demoWorkflowSkip.steps.length = 2) := by
  constructor
  · intro reg workflow workflow_id input_data st r h
    by_cases hen : workflow.enabled = false
    · simp only [execute_workflow, hen, if_true] at h
      cases h
    · simp only [execute_workflow, if_neg hen] at h
      have hcur := run_steps_cursor reg workflow.steps 0
        { execution :=
            { workflow_id := workflow_id, status := "running",
              input_data := input_data.getD .nil, context := .nil, output_data := none,
              current_step := 0, error_message := none, error_step := none,
              started_at := some 0, completed_at := none, duration_ms := none },
          rows := [], context := seed_context workflow input_data, clock := 1 } rfl
      split at h
      · rename_i st2 e heq
        rw [heq] at hcur
        cases h
        exact hcur
      · rename_i st2 u heq
        rw [heq] at hcur
        cases h
        exact hcur
  · refine ⟨ranState (execute_workflow demoRegistry (some demoWorkflowSkip) 4 none),
      ?_, ?_, ?_, ?_⟩
    · rfl
    · rfl
    · rfl
    · rfl

/-- Witness for C10 applying the general cursor law to the concrete
skip-tail run. -/
theorem current_step_tracks_last_success_witness :
    (ranState (execute_workflow demoRegistry
        (some demoWorkflowSkip) 4 none)).execution.current_step
      = last_completed_cursor 0
          (ranState (execute_workflow demoRegistry (some demoWorkflowSkip) 4 none)).rows :=
  current_step_tracks_last_success.1 demoRegistry demoWorkflowSkip 4 none
    (ranState (execute_workflow demoRegistry (some demoWorkflowSkip) 4 none))
    (ranResult (execute_workflow demoRegistry (some demoWorkflowSkip) 4 none))
    (by rfl)

end WorkflowEngine